import Mathlib

/-!
# PhotoWeb: a verification development for `src/main/photoweb.go`

The Go program is a small HTTP service: a static route, an upload handler, a
single-image view handler, a listing handler and a constant JSON endpoint,
the four dynamic ones wrapped in a panic barrier (`safeHandler`).

The handlers are embedded as pure functions over an explicit state
(file system, response writer, log of library calls).  What the handlers call
in the Go standard library (`os`, `io`, `ioutil`, `net/http`, `encoding/json`,
`html/template`) is modelled in the first half of the file; each model says
what it keeps and what it leaves out.

Conventions of the model

* A Go string is a Lean `String`, one `Char` standing for one byte; file
  contents and response bodies are strings as well.
* The file system is a tree of directories and regular files rooted at the
  working directory of the process.  There are no symbolic links, permissions
  or quotas, and `..` at the root stays at the root.
* A request carries no conditional or range headers.
* The response writer is the one of `net/http`: the status line is committed
  by the first `WriteHeader` or the first `Write`, and cannot be changed later.
* The file name of an uploaded part reaches the handler as `r.FormFile`
  hands it over: the last path element of the name the client sent.
* A name component may have up to 255 bytes and a path fewer than 4096, the
  limits of Linux; a path with a zero byte is refused as an invalid argument.
* The global `templates`, which `init` fills from the views directory before
  `main` runs, is a parameter of the handlers that render a view.  The call
  `ListenAndServe` and the scheduling of concurrent requests are outside the
  model: a handler call is an atomic step on the state.
-/

namespace PhotoWeb

/-! ## Go values: errors, panics -/

/-- The error numbers the model distinguishes. -/
inductive Errno where
  | ENOENT
  | ENOTDIR
  | EISDIR
  | EEXIST
  | ENAMETOOLONG
  | EINVAL
  deriving DecidableEq, Repr

/-- The text of an error number, as `syscall.Errno.Error` gives it. -/
def Errno.text : Errno → String
  | .ENOENT => "no such file or directory"
  | .ENOTDIR => "not a directory"
  | .EISDIR => "is a directory"
  | .EEXIST => "file exists"
  | .ENAMETOOLONG => "file name too long"
  | .EINVAL => "invalid argument"

/-- A Go value of type `error`: the text its `Error` method returns and, for
errors that come from the operating system, the error number. -/
structure GoError where
  msg : String
  errno : Option Errno
  deriving DecidableEq, Repr

/-- Go `errors.New(text)`. -/
def errorsNew (text : String) : GoError := ⟨text, none⟩

/-- The value carried by a Go panic: either a value implementing `error`
(the type assertion `.(error)` succeeds on it) or any other value, such as a
plain string (the assertion fails on it). -/
inductive PanicValue where
  | error (e : GoError)
  | other (v : String)
  deriving DecidableEq, Repr

/-- How a Go function call ends: it returns, or it is left by a panic. -/
inductive Completion where
  | returned
  | panicked (v : PanicValue)
  deriving DecidableEq, Repr

/-- The `runtime.Error` raised by calling a method through a nil interface or
nil pointer.  Runtime errors implement `error`. -/
def nilDereference : GoError :=
  errorsNew "runtime error: invalid memory address or nil pointer dereference"

/-- The `runtime.Error` raised by a slice expression `s[lo:]` with `lo` out of range. -/
def sliceOutOfRange (lo : Int) (len : Nat) : GoError :=
  errorsNew
    ("runtime error: slice bounds out of range [" ++ toString lo ++ ":" ++ toString len ++ "]")

/-- The method call `err.Error()` on a variable of interface type `error`:
on a nil interface the call panics with a nil dereference. -/
def callError (err : Option GoError) : Except PanicValue String :=
  match err with
  | some e => .ok e.msg
  | none => .error (PanicValue.error nilDereference)

/-- The builtin `recover()` called directly by a deferred function: it yields
the value of the panic in flight (nil when there is none) and stops the
panicking sequence, whatever the type of the value, so that the function that
deferred the call returns normally to its caller. -/
def recover (c : Completion) : Option PanicValue × Completion :=
  match c with
  | .returned => (none, .returned)
  | .panicked v => (some v, .returned)

/-! ## Paths -/

/-- Splits a character sequence at every separator; the result has one more
component than there are separators. -/
def splitAt (sep : Char → Bool) : List Char → List (List Char)
  | [] => [[]]
  | c :: cs =>
    if sep c then [] :: splitAt sep cs
    else
      match splitAt sep cs with
      | [] => [[c]]
      | x :: xs => (c :: x) :: xs

/-- The slash-separated components of a path string. -/
def components (s : String) : List String :=
  (splitAt (fun c => c = '/') s.data).map String.mk

/-- A resolved location in the tree: the names from the root down. -/
abbrev Path := List String

/-- One step of path resolution: empty and `.` components stay, `..` goes to
the parent (the root is its own parent), a name goes down. -/
def step (cur : Path) (c : String) : Path :=
  if c = "" ∨ c = "." then cur
  else if c = ".." then cur.dropLast
  else cur ++ [c]

/-- Lexical resolution of a component list, as `path.Clean` and
`filepath.Join` do it: no look at the file system. -/
def lexicalClean (comps : List String) : Path :=
  comps.foldl step []

/-- The location a path string denotes once its `.` and `..` segments are collapsed. -/
def cleanPath (s : String) : Path :=
  lexicalClean (components s)

/-! ## File system -/

/-- A node of the tree: a regular file with its bytes, or a directory. -/
inductive Node where
  | file (content : String)
  | dir
  deriving DecidableEq, Repr

/-- The file system: the nodes below the root, keyed by location.  The first
entry for a location is the node there; the root itself is always a directory. -/
structure FileSystem where
  entries : List (Path × Node)
  deriving DecidableEq, Repr

/-- First node recorded for a location. -/
def lookupEntry (p : Path) : List (Path × Node) → Option Node
  | [] => none
  | e :: rest => if e.1 = p then some e.2 else lookupEntry p rest

/-- The node at a location, if any. -/
def FileSystem.lookup (fs : FileSystem) (p : Path) : Option Node :=
  if p = [] then some Node.dir else lookupEntry p fs.entries

/-- Replaces (or adds) the node at a location. -/
def FileSystem.put (fs : FileSystem) (p : Path) (n : Node) : FileSystem :=
  ⟨(p, n) :: fs.entries.filter (fun e => !decide (e.1 = p))⟩

/-- The names of the nodes directly inside a directory, each once. -/
def FileSystem.childNames (fs : FileSystem) (d : Path) : List String :=
  (fs.entries.filterMap (fun e =>
    if e.1.dropLast = d then e.1.getLast? else none)).dedup

/-- The `*os.PathError` of a failed operation on a path. -/
def pathError (op path : String) (e : Errno) : GoError :=
  ⟨op ++ " " ++ path ++ ": " ++ e.text, some e⟩

/-- The longest name of a directory entry, in bytes. -/
def NAME_MAX : Nat := 255

/-- The size of the buffer a path has to fit in together with its final
zero byte: a path of this length or more is too long. -/
def PATH_MAX : Nat := 4096

/-- The length of the path that joins the components with slashes, plus one. -/
def joinLen (comps : List String) : Nat :=
  (comps.map (fun c => c.length + 1)).sum

/-- Resolution of a component list by the operating system, starting in
directory `cur`: before each component is applied, `cur` has to be an
existing directory, and the component must not be longer than a name may be.
The location reached need not exist. -/
def walk (fs : FileSystem) : Path → List String → Except Errno Path
  | cur, [] => .ok cur
  | cur, c :: cs =>
    match fs.lookup cur with
    | some Node.dir =>
      if NAME_MAX < c.length then .error Errno.ENAMETOOLONG
      else walk fs (step cur c) cs
    | some (Node.file _) => .error Errno.ENOTDIR
    | none => .error Errno.ENOENT

/-- The string holds a zero byte. -/
def hasNul (s : String) : Bool :=
  s.data.any (fun c => decide (c = Char.ofNat 0))

/-- Resolution of a path string by the operating system: a path with a zero
byte is an invalid argument, the empty path names nothing, a path of
`PATH_MAX` bytes or more is too long. -/
def resolve (fs : FileSystem) (path : String) : Except Errno Path :=
  if hasNul path then .error Errno.EINVAL
  else if path = "" then .error Errno.ENOENT
  else if PATH_MAX ≤ path.length then .error Errno.ENAMETOOLONG
  else walk fs [] (components path)

/-- The node a path string names, or the error number of the failed lookup. -/
def statNode (fs : FileSystem) (path : String) : Except Errno Node :=
  match resolve fs path with
  | .error e => .error e
  | .ok p =>
    match fs.lookup p with
    | some n => .ok n
    | none => .error Errno.ENOENT

/-- Model of `os.Stat`: succeeds exactly when the path names an existing node. -/
def osStat (fs : FileSystem) (path : String) : Except GoError Node :=
  match statNode fs path with
  | .ok n => .ok n
  | .error e => .error (pathError "stat" path e)

/-- Model of `os.IsExist`: true for errors that report that a file already exists. -/
def osIsExist (err : GoError) : Bool :=
  decide (err.errno = some Errno.EEXIST)

/-- An open file: the location of the regular file it refers to and the
offset at which the next write goes. -/
structure OpenFile where
  loc : Path
  offset : Nat
  deriving DecidableEq, Repr

/-- Model of `os.Create` (open with create and truncate): the path has to
resolve and must not name a directory; afterwards an empty regular file is at
the resolved location (a file that was there is truncated to length zero),
and the result is that file, open at offset 0. -/
def osCreate (fs : FileSystem) (path : String) : Except GoError (FileSystem × OpenFile) :=
  match resolve fs path with
  | .error e => .error (pathError "open" path e)
  | .ok p =>
    match fs.lookup p with
    | some Node.dir => .error (pathError "open" path Errno.EISDIR)
    | _ => .ok (fs.put p (Node.file ""), ⟨p, 0⟩)

/-- Bytewise lexicographic order on names, the order `ioutil.ReadDir` sorts by. -/
def bytesLE : List Char → List Char → Bool
  | [], _ => true
  | _ :: _, [] => false
  | a :: as, b :: bs =>
    if a.toNat < b.toNat then true
    else if b.toNat < a.toNat then false
    else bytesLE as bs

/-- The entry of a directory listing, as far as the program looks at it. -/
structure FileInfo where
  name : String
  isDir : Bool
  deriving DecidableEq, Repr

/-- The method `Name` of `os.FileInfo`. -/
def FileInfo.Name (f : FileInfo) : String := f.name

/-- Model of `ioutil.ReadDir`: the entries of the directory the path names,
sorted by name, each once.  The result is the Go pair (entries, err): a nil
`err` with the entries, or no entries with the error. -/
def ioutilReadDir (fs : FileSystem) (path : String) : List FileInfo × Option GoError :=
  match resolve fs path with
  | .error e => ([], some (pathError "open" path e))
  | .ok d =>
    match fs.lookup d with
    | none => ([], some (pathError "open" path Errno.ENOENT))
    | some (Node.file _) => ([], some (pathError "readdirent" path Errno.ENOTDIR))
    | some Node.dir =>
      (((fs.childNames d).insertionSort (fun a b => bytesLE a.data b.data = true)).map
        (fun n => ⟨n, decide (fs.lookup (d ++ [n]) = some Node.dir)⟩), none)

/-- The stream of an uploaded file: the bytes it delivers and, if reading
breaks off after them, the read error. -/
structure MultipartFile where
  content : String
  readErr : Option GoError
  deriving DecidableEq, Repr

/-- Writing bytes into a file at an offset: the bytes replace what the file
holds from the offset on, as far as they reach; what lies before the offset
and beyond the written range stays (a gap before the offset is filled with
zero bytes).  Nothing is truncated; writing no bytes changes nothing. -/
def writeAt (old : String) (offset : Nat) (data : String) : String :=
  if data = "" then old
  else
    let padded := old.data ++ List.replicate (offset - old.data.length) (Char.ofNat 0)
    String.mk (padded.take offset ++ data.data ++ padded.drop (offset + data.data.length))

/-- Model of `io.Copy(dst, src)` into an open file: the bytes the source
delivers are written to the file from the offset of `dst` on, over what the
file holds there; the result is the read error of the source, if any.  A
write to a location that holds no regular file reaches nothing in the tree.
Writes themselves do not fail in the model. -/
def ioCopy (fs : FileSystem) (dst : OpenFile) (src : MultipartFile) :
    FileSystem × Option GoError :=
  match fs.lookup dst.loc with
  | some (Node.file old) =>
    (fs.put dst.loc (Node.file (writeAt old dst.offset src.content)), src.readErr)
  | _ => (fs, src.readErr)

/-! ## Requests and responses -/

/-- The part of `multipart.FileHeader` the program reads: the file name of
the part as `mime/multipart` hands it over. -/
structure FileHeader where
  Filename : String
  deriving DecidableEq, Repr

/-- The part of `http.Request` the program and `net/http` read: method, URL
path and raw query, the parsed form values, and the parts of the multipart
body that carry a file name, each with its field name, the file name the
client sent and its stream (or the error of parsing the body). -/
structure Request where
  Method : String
  urlPath : String
  rawQuery : String
  form : List (String × String)
  multipartErr : Option GoError
  files : List (String × String × MultipartFile)

/-- Model of `r.FormValue(key)`: the first value for the key, or the empty string. -/
def Request.FormValue (r : Request) (key : String) : String :=
  match r.form.find? (fun kv => kv.1 = key) with
  | some kv => kv.2
  | none => ""

/-- The error `http.ErrMissingFile`. -/
def ErrMissingFile : GoError := errorsNew "http: no such file"

/-- Model of `filepath.Base` on a slash-separated path: trailing slashes are
dropped and the last element is returned; the empty path gives `.`, a path of
slashes only gives `/`. -/
def filepathBase (path : String) : String :=
  if path = "" then "."
  else
    let last := ((path.data.reverse.dropWhile (fun c => c = '/')).takeWhile
      (fun c => !decide (c = '/'))).reverse
    if last = [] then "/" else String.mk last

/-- Model of `r.FormFile(key)`: the error of parsing the multipart body, else
the first file under the key, else `ErrMissingFile`.  A part whose file name
is empty is an ordinary form value, not a file; the file name in the header
is `filepath.Base` of the name the client sent. -/
def Request.FormFile (r : Request) (key : String) : Except GoError (MultipartFile × FileHeader) :=
  match r.multipartErr with
  | some e => .error e
  | none =>
    match r.files.find? (fun kf => decide (kf.1 = key) && !decide (kf.2.1 = "")) with
    | some kf => .ok (kf.2.2, ⟨filepathBase kf.2.1⟩)
    | none => .error ErrMissingFile

/-- State of an `http.ResponseWriter`: the header map, the status line once
it is committed, and the body bytes written so far. -/
structure ResponseWriter where
  header : List (String × String)
  status : Option Nat
  body : String
  deriving DecidableEq, Repr

/-- The writer the server hands to a handler: nothing set, nothing written. -/
def ResponseWriter.fresh : ResponseWriter := ⟨[], none, ""⟩

/-- Model of `w.Header().Set(key, value)`. -/
def ResponseWriter.headerSet (w : ResponseWriter) (key value : String) : ResponseWriter :=
  { w with header := (key, value) :: w.header.filter (fun kv => !decide (kv.1 = key)) }

/-- Model of `w.Header().Del(key)`. -/
def ResponseWriter.headerDel (w : ResponseWriter) (key : String) : ResponseWriter :=
  { w with header := w.header.filter (fun kv => !decide (kv.1 = key)) }

/-- Model of `w.WriteHeader(code)`: the first call commits the status; a call
on a committed response changes nothing (net/http logs it as superfluous). -/
def ResponseWriter.WriteHeader (w : ResponseWriter) (code : Nat) : ResponseWriter :=
  match w.status with
  | some _ => w
  | none => { w with status := some code }

/-- Model of `w.Write(data)`: commits status 200 if no status is committed
yet, then appends the bytes to the body. -/
def ResponseWriter.Write (w : ResponseWriter) (data : String) : ResponseWriter :=
  let w1 := w.WriteHeader 200
  { w1 with body := w1.body ++ data }

/-- Go constant `http.StatusInternalServerError`. -/
def StatusInternalServerError : Nat := 500

/-- Go constant `http.StatusFound`. -/
def StatusFound : Nat := 302

/-- Model of `http.Error(w, text, code)`: plain-text headers, the status, and
the text followed by a newline as body. -/
def httpError (w : ResponseWriter) (text : String) (code : Nat) : ResponseWriter :=
  let w1 := w.headerDel "Content-Length"
  let w2 := w1.headerSet "Content-Type" "text/plain; charset=utf-8"
  let w3 := w2.headerSet "X-Content-Type-Options" "nosniff"
  let w4 := w3.WriteHeader code
  w4.Write (text ++ "\n")

/-- Model of `http.NotFound(w, r)`. -/
def httpNotFound (w : ResponseWriter) : ResponseWriter :=
  httpError w "404 page not found" 404

/-- The reason phrases `http.StatusText` gives for the redirect codes used here. -/
def statusText (code : Nat) : String :=
  if code = 301 then "Moved Permanently" else if code = 302 then "Found" else ""

/-- Model of `http.Redirect(w, r, url, code)` for a URL that starts with a
slash: the `Location` header and the status; for GET (and HEAD) requests
without a content type also a short HTML body.  Cleaning and escaping of the
URL are left out. -/
def httpRedirect (w : ResponseWriter) (r : Request) (url : String) (code : Nat) : ResponseWriter :=
  let hadCT := w.header.any (fun kv => kv.1 = "Content-Type")
  let w1 := w.headerSet "Location" url
  let w2 := if !hadCT && (r.Method = "GET" || r.Method = "HEAD") then
      w1.headerSet "Content-Type" "text/html; charset=utf-8" else w1
  let w3 := w2.WriteHeader code
  if !hadCT && r.Method = "GET" then
    w3.Write ("<a href=\"" ++ url ++ "\">" ++ statusText code ++ "</a>.\n\n")
  else w3

/-! ## Handler state -/

/-- The data context handed to a view: named sequences of strings.  The nil
map of Go is the empty context. -/
abbrev Locals := List (String × List String)

/-- The library calls the log records. -/
inductive Call where
  | stat (path : String)
  | readDir (path : String)
  | formFile (key : String)
  | create (path : String)
  | copy (dst : OpenFile)
  | execute (key : String) (locals : Locals)
  | serveFile (name : String)
  deriving DecidableEq, Repr

/-- What a handler works on: the file system, the response writer of the
request, and the log of the library calls made so far. -/
structure State where
  fs : FileSystem
  w : ResponseWriter
  trace : List Call
  deriving DecidableEq, Repr

/-- Appends a call to the log. -/
def State.log (st : State) (c : Call) : State :=
  { st with trace := st.trace ++ [c] }

/-- Applies an operation to the response writer. -/
def State.withW (st : State) (f : ResponseWriter → ResponseWriter) : State :=
  { st with w := f st.w }

/-- The state in which the server calls a handler: a fresh writer, an empty log. -/
def State.start (fs : FileSystem) : State := ⟨fs, ResponseWriter.fresh, []⟩

/-- The state a handler call leaves and how the call ended. -/
structure Outcome where
  st : State
  result : Completion
  deriving DecidableEq, Repr

/-- A Go `http.HandlerFunc`, `func(w http.ResponseWriter, r *http.Request)`. -/
abbrev HandlerFunc := Request → State → Outcome

/-- The statement `http.Error(w, err.Error(), code); return`: the argument
`err.Error()` is evaluated first, and panics when `err` is nil. -/
def replyWithError (err : Option GoError) (code : Nat) (st : State) : Outcome :=
  match callError err with
  | .error v => ⟨st, Completion.panicked v⟩
  | .ok text => ⟨st.withW (fun w => httpError w text code), Completion.returned⟩

/-! ## `http.ServeFile` -/

/-- Go `strings.HasSuffix`. -/
def hasSuffix (s suffix : String) : Bool :=
  suffix.data.isSuffixOf s.data

/-- The check `containsDotDot` of net/http: some segment between slashes or
backslashes is `..`. -/
def containsDotDot (v : String) : Bool :=
  (splitAt (fun c => c = '/' || c = Char.ofNat 92) v.data).any (fun seg => seg = ['.', '.'])

/-- Go `path.Base` for a path that does not end in a slash. -/
def pathBase (s : String) : String :=
  if s = "" then "." else (components s).getLast?.getD ""

/-- The location `http.ServeFile(w, r, name)` opens: the name is split after
its last slash into directory and file, the file part is cleaned as a rooted
path (so a file part `.` or `..` or an empty one names the directory itself)
and joined lexically to the directory. -/
def serveTarget (name : String) : Path :=
  let comps := components name
  let file := comps.getLast?.getD ""
  let dir := lexicalClean comps.dropLast
  if file = "" ∨ file = "." ∨ file = ".." then dir else dir ++ [file]

/-- Model of `os.Open` (and `os.Stat`) on an already cleaned location, whose
path is its components joined with slashes. -/
def openNode (fs : FileSystem) (p : Path) : Except Errno Node :=
  if p.any hasNul then .error Errno.EINVAL
  else if PATH_MAX < joinLen p then .error Errno.ENAMETOOLONG
  else
    match walk fs [] p with
    | .error e => .error e
    | .ok q =>
      match fs.lookup q with
      | some n => .ok n
      | none => .error Errno.ENOENT

/-- The loop of `mapOpenError` over the initial segments of the location, the
shorter first: a segment that cannot be examined keeps the original error, a
segment that is not a directory turns it into not-exist. -/
def mapOpenErrorFrom (fs : FileSystem) (original : Errno) : Path → List String → Errno
  | _, [] => original
  | done, c :: rest =>
    match openNode fs (done ++ [c]) with
    | .error _ => original
    | .ok (Node.file _) => Errno.ENOENT
    | .ok Node.dir => mapOpenErrorFrom fs original (done ++ [c]) rest

/-- Model of `mapOpenError` of net/http: a not-exist error stays; any other
error of opening a location becomes not-exist when one of the initial segments
of the location is not a directory. -/
def mapOpenError (fs : FileSystem) (original : Errno) (p : Path) : Errno :=
  if original = Errno.ENOENT then Errno.ENOENT else mapOpenErrorFrom fs original [] p

/-- Model of `toHTTPError` of net/http: not-exist gives 404, every other
error of this model gives 500. -/
def toHTTPError (e : Errno) : String × Nat :=
  if e = Errno.ENOENT then ("404 page not found", 404)
  else ("500 Internal Server Error", 500)

/-- Model of `localRedirect` of net/http. -/
def localRedirect (w : ResponseWriter) (r : Request) (newPath : String) : ResponseWriter :=
  let target := if r.rawQuery ≠ "" then newPath ++ "?" ++ r.rawQuery else newPath
  (w.headerSet "Location" target).WriteHeader 301

/-- Model of `serveContent` for a regular file and a request without range
or conditional headers: status 200 and, unless the method is HEAD, the bytes
of the file.  A content type set before is kept; deducing one is not
modelled. -/
def serveContent (w : ResponseWriter) (r : Request) (content : String) : ResponseWriter :=
  let w1 := w.WriteHeader 200
  if r.Method = "HEAD" then w1 else w1.Write content

/-- The replacements of `htmlReplacer` of net/http. -/
def htmlEscapeChar (c : Char) : List Char :=
  if c = '&' then "&amp;".data
  else if c = '<' then "&lt;".data
  else if c = '>' then "&gt;".data
  else if c = Char.ofNat 34 then "&#34;".data
  else if c = Char.ofNat 39 then "&#39;".data
  else [c]

/-- Model of `dirList`: a doctype line, a viewport line, and one anchor line
for each entry, its name HTML-escaped (percent-escaping of the link target is
left out). -/
def dirList (w : ResponseWriter) (entries : List FileInfo) : ResponseWriter :=
  let line := fun (e : FileInfo) =>
    let n := if e.isDir then e.name ++ "/" else e.name
    "<a href=\"" ++ n ++ "\">" ++ String.mk (n.data.flatMap htmlEscapeChar) ++ "</a>\n"
  let w1 := w.headerSet "Content-Type" "text/html; charset=utf-8"
  w1.Write ("<!doctype html>\n<meta name=\"viewport\" content=\"width=device-width\">\n"
    ++ "<pre>\n" ++ String.join (entries.map line) ++ "</pre>\n")

/-- Model of `http.ServeFile(w, r, name)`.

* a URL path with a `..` segment is refused (400);
* a URL path ending in `/index.html` is redirected to `./`;
* a name whose part after the last slash holds a zero byte is refused as an
  invalid path (`500 Internal Server Error`);
* a name that cannot be opened gives the answer of `toHTTPError` for the
  error as `mapOpenError` maps it: `404 page not found`, or
  `500 Internal Server Error` (a name that is too long, for one);
* a regular file is sent with status 200 (without body for HEAD);
* a directory is redirected to when the URL path has no final slash, else
  answered with its `index.html` or a listing. -/
def httpServeFile (r : Request) (name : String) (st : State) : State :=
  let st1 := st.log (Call.serveFile name)
  if containsDotDot r.urlPath then
    st1.withW (fun w => httpError w "invalid URL path" 400)
  else if hasSuffix r.urlPath "/index.html" then
    st1.withW (fun w => localRedirect w r "./")
  else if hasNul ((components name).getLast?.getD "") then
    st1.withW (fun w => httpError w "500 Internal Server Error" 500)
  else
    match openNode st1.fs (serveTarget name) with
    | .error e =>
      let answer := toHTTPError (mapOpenError st1.fs e (serveTarget name))
      st1.withW (fun w => httpError w answer.1 answer.2)
    | .ok (Node.file content) => st1.withW (fun w => serveContent w r content)
    | .ok Node.dir =>
      if !(hasSuffix r.urlPath "/") then
        st1.withW (fun w => localRedirect w r (pathBase r.urlPath ++ "/"))
      else
        match openNode st1.fs (serveTarget name ++ ["index.html"]) with
        | .ok (Node.file content) => st1.withW (fun w => serveContent w r content)
        | _ =>
          let d := serveTarget name
          let entries := ((st1.fs.childNames d).insertionSort
            (fun a b => bytesLE a.data b.data = true)).map
            (fun n => (⟨n, decide (st1.fs.lookup (d ++ [n]) = some Node.dir)⟩ : FileInfo))
          st1.withW (fun w => dirList w entries)

/-! ## Views -/

/-- A parsed template, as far as the program can tell: executed with a data
context it writes some output and returns nil, or stops with an error after
the output it had produced so far. -/
abbrev Template := Locals → String × Option GoError

/-- The global `templates`: the views loaded at start-up, keyed by file name.
A key without template yields the nil pointer. -/
abbrev Templates := String → Option Template

/-- Model of the method call `t.Execute(w, locals)` on the pointer found under
`key`: on the nil pointer it panics with a nil dereference; otherwise the
output (if any) is written to `w` and the error of the template is returned. -/
def templateExecute (t : Option Template) (key : String) (locals : Locals) (st : State) :
    State × Except PanicValue (Option GoError) :=
  let st1 := st.log (Call.execute key locals)
  match t with
  | none => (st1, .error (PanicValue.error nilDereference))
  | some run =>
    let res := run locals
    (if res.1 = "" then st1 else st1.withW (fun w => w.Write res.1), .ok res.2)

/-! ## JSON -/

/-- Source type `Man`. -/
structure Man where
  Age : Int
  Name : String
  Sex : Bool
  deriving DecidableEq, Repr

/-- The double quote. -/
def dquote : Char := Char.ofNat 34

/-- The backslash. -/
def bslash : Char := Char.ofNat 92

/-- A hexadecimal digit, lower case. -/
def hexDigit (n : Nat) : Char :=
  if n < 10 then Char.ofNat (48 + n) else Char.ofNat (87 + n)

/-- How `encoding/json` writes one character inside a string: quote and
backslash with a backslash, newline, carriage return, tab, backspace and form
feed by their letter, every other control character below 0x20 and the
HTML-sensitive characters as `\u00XX`. -/
def jsonEscapeChar (c : Char) : List Char :=
  if c = dquote then [bslash, dquote]
  else if c = bslash then [bslash, bslash]
  else if c = Char.ofNat 10 then [bslash, 'n']
  else if c = Char.ofNat 13 then [bslash, 'r']
  else if c = Char.ofNat 9 then [bslash, 't']
  else if c = Char.ofNat 8 then [bslash, 'b']
  else if c = Char.ofNat 12 then [bslash, 'f']
  else if c.toNat < 32 ∨ c = '<' ∨ c = '>' ∨ c = '&' then
    [bslash, 'u', '0', '0', hexDigit (c.toNat / 16), hexDigit (c.toNat % 16)]
  else [c]

/-- A JSON string literal. -/
def jsonString (s : String) : String :=
  String.mk ([dquote] ++ s.data.flatMap jsonEscapeChar ++ [dquote])

/-- Decimal digits of a natural number, most significant first. -/
def natDigits (fuel n : Nat) : List Char :=
  match fuel with
  | 0 => [Char.ofNat (48 + n % 10)]
  | f + 1 =>
    if n < 10 then [Char.ofNat (48 + n)]
    else natDigits f (n / 10) ++ [Char.ofNat (48 + n % 10)]

/-- A JSON integer literal. -/
def jsonInt (n : Int) : String :=
  if n < 0 then String.mk ('-' :: natDigits n.natAbs n.natAbs)
  else String.mk (natDigits n.natAbs n.natAbs)

/-- Model of `json.Marshal` on a `Man`: an object with the exported field
names as keys, in declaration order.  It does not fail on this type. -/
def jsonMarshal (me : Man) : Except GoError String :=
  .ok ("\x7b" ++ jsonString "Age" ++ ":" ++ jsonInt me.Age ++ ","
    ++ jsonString "Name" ++ ":" ++ jsonString me.Name ++ ","
    ++ jsonString "Sex" ++ ":" ++ (if me.Sex then "true" else "false") ++ "\x7d")

/-- A JSON value of the kinds a `Man` is made of. -/
inductive JsonValue where
  | int (n : Int)
  | str (s : String)
  | bool (b : Bool)
  deriving DecidableEq, Repr

/-- Reads a string literal after its opening quote: the characters up to the
closing quote (simple escapes undone) and the rest of the input. -/
def parseStringBody : List Char → Option (List Char × List Char)
  | [] => none
  | c :: cs =>
    if c = dquote then some ([], cs)
    else if c = bslash then
      match cs with
      | [] => none
      | e :: cs2 =>
        let plain : Option Char :=
          if e = dquote then some dquote
          else if e = bslash then some bslash
          else if e = 'n' then some (Char.ofNat 10)
          else if e = 'r' then some (Char.ofNat 13)
          else if e = 't' then some (Char.ofNat 9)
          else none
        match plain, parseStringBody cs2 with
        | some x, some (str, rest) => some (x :: str, rest)
        | _, _ => none
    else
      match parseStringBody cs with
      | some (str, rest) => some (c :: str, rest)
      | none => none

/-- The value of a digit sequence. -/
def digitsValue (ds : List Char) : Nat :=
  ds.foldl (fun acc d => acc * 10 + (d.toNat - 48)) 0

/-- Reads one value (integer, string or boolean) and returns the rest of the input. -/
def parseValue (cs : List Char) : Option (JsonValue × List Char) :=
  match cs with
  | [] => none
  | c :: rest =>
    if c = dquote then
      (parseStringBody rest).map (fun sr => (JsonValue.str (String.mk sr.1), sr.2))
    else if ['t', 'r', 'u', 'e'].isPrefixOf cs then some (JsonValue.bool true, cs.drop 4)
    else if ['f', 'a', 'l', 's', 'e'].isPrefixOf cs then some (JsonValue.bool false, cs.drop 5)
    else if c = '-' then
      let ds := rest.takeWhile Char.isDigit
      if ds = [] then none
      else some (JsonValue.int (- (digitsValue ds : Int)), rest.dropWhile Char.isDigit)
    else
      let ds := cs.takeWhile Char.isDigit
      if ds = [] then none
      else some (JsonValue.int (digitsValue ds : Int), cs.dropWhile Char.isDigit)

/-- Reads the members of an object after its opening brace, up to the end of the input. -/
def parseMembers : Nat → List Char → Option (List (String × JsonValue))
  | 0, _ => none
  | fuel + 1, cs =>
    match cs with
    | c :: rest =>
      if c = dquote then
        match parseStringBody rest with
        | some (key, c2 :: rest2) =>
          if c2 = ':' then
            match parseValue rest2 with
            | some (v, c3 :: rest3) =>
              if c3 = ',' then
                (parseMembers fuel rest3).map (fun ms => (String.mk key, v) :: ms)
              else if c3 = Char.ofNat 125 ∧ rest3 = [] then some [(String.mk key, v)]
              else none
            | _ => none
          else none
        | _ => none
      else none
    | [] => none

/-- Decodes the JSON text of an object into a `Man`, field by field under the
field names (what a client does with `json.Unmarshal`). -/
def decodeMan (text : String) : Option Man :=
  match text.data with
  | c :: rest =>
    if c = Char.ofNat 123 then
      match parseMembers rest.length rest with
      | some ms =>
        match ms.lookup "Age", ms.lookup "Name", ms.lookup "Sex" with
        | some (JsonValue.int a), some (JsonValue.str n), some (JsonValue.bool b) =>
          some ⟨a, n, b⟩
        | _, _, _ => none
      | none => none
    else none
  | [] => none

/-! ## The program -/

/-- Source constant `ListDir`. -/
def ListDir : Int := 0x0001

/-- Source constant `UPLOAD_DIR`. -/
def UPLOAD_DIR : String := "./src/uploads"

/-- Source constant `VIEWS_DIR`. -/
def VIEWS_DIR : String := "./src/views"

/-- Source constant `STATIC_DIR`. -/
def STATIC_DIR : String := "./src/public"

/-- Source function `IsExist`: `os.Stat` succeeded, or failed with an error
for which `os.IsExist` holds. -/
def IsExist (path : String) (st : State) : State × Bool :=
  let st1 := st.log (Call.stat path)
  match osStat st1.fs path with
  | .ok _ => (st1, true)
  | .error err => (st1, osIsExist err)

/-- The Go slice expression `s[lo:]` on a string: panics when `lo` is
negative or beyond the length. -/
def sliceFrom (s : String) (lo : Int) : Except PanicValue String :=
  if 0 ≤ lo ∧ lo ≤ (s.length : Int) then .ok (String.mk (s.data.drop lo.toNat))
  else .error (PanicValue.error (sliceOutOfRange lo s.length))

/-- The function literal `staticDirHandler` registers under `pre`
(source lines 77 to 86; `pre` is the parameter `prefix` of the source). -/
def staticDirFunc (pre : String) (staticDir : String) (flags : Int) : HandlerFunc :=
  fun r st =>
    match sliceFrom r.urlPath ((pre.length : Int) - 1) with
    | .error v => ⟨st, Completion.panicked v⟩
    | .ok rest =>
      let file := staticDir ++ rest
      if Int.land flags ListDir = 0 then
        let (st1, exists_) := IsExist file st
        if !exists_ then
          ⟨st1.withW httpNotFound, Completion.returned⟩
        else
          ⟨httpServeFile r file st1, Completion.returned⟩
      else
        ⟨httpServeFile r file st, Completion.returned⟩

/-- A `http.ServeMux` as a route table: the registered patterns with their handlers. -/
abbrev ServeMux := List (String × HandlerFunc)

/-- Model of `mux.HandleFunc(pattern, handler)`. -/
def ServeMux.HandleFunc (mux : ServeMux) (pattern : String) (handler : HandlerFunc) : ServeMux :=
  mux ++ [(pattern, handler)]

/-- Source function `staticDirHandler`. -/
def staticDirHandler (mux : ServeMux) (pre : String) (staticDir : String) (flags : Int) :
    ServeMux :=
  mux.HandleFunc pre (staticDirFunc pre staticDir flags)

/-- Source function `safeHandler`.  The deferred function runs when `fn`
has returned or panicked: it calls `recover()`, asserts the recovered value to
be an `error`, and only then answers with `http.Error`. -/
def safeHandler (fn : HandlerFunc) : HandlerFunc :=
  fun r st =>
    let out := fn r st
    let (recovered, result) := recover out.result
    match recovered with
    | some (PanicValue.error e) =>
      ⟨out.st.withW (fun w => httpError w e.msg StatusInternalServerError), result⟩
    | _ => ⟨out.st, result⟩

/-- Source function `useTemplateFile`. -/
def useTemplateFile (templates : Templates) (fileName : String) (locals : Locals)
    (st : State) : State × Except PanicValue (Option GoError) :=
  let key := fileName ++ ".html"
  templateExecute (templates key) key locals st

/-- Source function `textJsonReturn`. -/
def textJsonReturn : HandlerFunc :=
  fun r st =>
    if r.Method = "GET" then
      let me : Man := ⟨12, "Afra", true⟩
      match jsonMarshal me with
      | .error err => replyWithError (some err) StatusInternalServerError st
      | .ok jsonStr => ⟨st.withW (fun w => w.Write jsonStr), Completion.returned⟩
    else ⟨st, Completion.returned⟩

/-- Source function `viewImageHandler`. -/
def viewImageHandler : HandlerFunc :=
  fun r st =>
    let imageId := r.FormValue "id"
    let imagePath := UPLOAD_DIR ++ "/" ++ imageId
    let st1 := st.withW (fun w => w.headerSet "Content-Type" "image")
    ⟨httpServeFile r imagePath st1, Completion.returned⟩

/-- Source function `listSavedImage`.  The variable `err` is the error of the
directory read; line 164 of the source passes it, not `resultErr`, to
`http.Error`. -/
def listSavedImage (templates : Templates) : HandlerFunc :=
  fun _r st =>
    let st1 := st.log (Call.readDir UPLOAD_DIR)
    let (fileInfoArr, err) := ioutilReadDir st1.fs UPLOAD_DIR
    if err ≠ none then
      replyWithError err StatusInternalServerError st1
    else
      let images := fileInfoArr.foldl (fun images file => images ++ [file.Name]) []
      let locals : Locals := [("images", images)]
      match useTemplateFile templates "list" locals st1 with
      | (st2, .error v) => ⟨st2, Completion.panicked v⟩
      | (st2, .ok resultErr) =>
        if resultErr ≠ none then
          replyWithError err StatusInternalServerError st2
        else ⟨st2, Completion.returned⟩

/-- Source function `uploadHandler`.  The deferred `Close` calls have no
effect in the model. -/
def uploadHandler (templates : Templates) : HandlerFunc :=
  fun r st =>
    if r.Method = "GET" then
      match useTemplateFile templates "upload" [] st with
      | (st1, .error v) => ⟨st1, Completion.panicked v⟩
      | (st1, .ok err) =>
        if err ≠ none then
          replyWithError err StatusInternalServerError st1
        else ⟨st1, Completion.returned⟩
    else if r.Method = "POST" then
      let st1 := st.log (Call.formFile "image")
      match r.FormFile "image" with
      | .error err => replyWithError (some err) StatusInternalServerError st1
      | .ok (f, h) =>
        let fileName := h.Filename
        let st2 := st1.log (Call.create (UPLOAD_DIR ++ "/" ++ fileName))
        match osCreate st2.fs (UPLOAD_DIR ++ "/" ++ fileName) with
        | .error err => replyWithError (some err) StatusInternalServerError st2
        | .ok (fs1, tempFile) =>
          let st3 := { st2 with fs := fs1 }.log (Call.copy tempFile)
          match ioCopy st3.fs tempFile f with
          | (fs2, some err) =>
            replyWithError (some err) StatusInternalServerError { st3 with fs := fs2 }
          | (fs2, none) =>
            ⟨{ st3 with fs := fs2 }.withW
              (fun w => httpRedirect w r ("/view?id=" ++ fileName) StatusFound),
              Completion.returned⟩
    else ⟨st, Completion.returned⟩

/-- Source function `main`, up to the call of `ListenAndServe`: the route table. -/
def main (templates : Templates) : ServeMux :=
  let mux : ServeMux := []
  let mux := staticDirHandler mux "/assets/" STATIC_DIR 0
  let mux := mux.HandleFunc "/upload" (safeHandler (uploadHandler templates))
  let mux := mux.HandleFunc "/view" (safeHandler viewImageHandler)
  let mux := mux.HandleFunc "/list" (safeHandler (listSavedImage templates))
  let mux := mux.HandleFunc "/json" (safeHandler textJsonReturn)
  mux

/-! ## Notions used in the statements -/

/-- A component that names an entry: not empty, not `.`, not `..`. -/
def PlainName (c : String) : Prop := c ≠ "" ∧ c ≠ "." ∧ c ≠ ".."

instance (c : String) : Decidable (PlainName c) := by unfold PlainName; infer_instance

/-- The path is one the operating system accepts: no zero byte, fewer than
`PATH_MAX` bytes in all, and no component longer than `NAME_MAX`. -/
def WellFormedPath (path : String) : Prop :=
  hasNul path = false ∧ path.length < PATH_MAX
    ∧ ∀ c ∈ components path, c.length ≤ NAME_MAX

instance (path : String) : Decidable (WellFormedPath path) := by
  unfold WellFormedPath
  infer_instance

/-- Nothing exists at the path: it does not resolve, or nothing is stored at
the location it resolves to. -/
def Absent (fs : FileSystem) (path : String) : Prop :=
  match resolve fs path with
  | .error _ => True
  | .ok p => fs.lookup p = none

instance (fs : FileSystem) (path : String) : Decidable (Absent fs path) := by
  unfold Absent
  split <;> infer_instance

/-- Every proper initial segment of the location is an existing directory. -/
def PrefixDirs (fs : FileSystem) (p : Path) : Prop :=
  ∀ q : Path, q <+: p → q ≠ p → fs.lookup q = some Node.dir

/-- The request is a POST whose field `image` holds a file named `name`, and
on storage `fs` the upload handler answers it with the redirect. -/
def UploadSucceeds (templates : Templates) (fs : FileSystem) (r : Request) (name : String) :
    Prop :=
  r.Method = "POST"
    ∧ (r.FormFile "image").toOption.map (fun fh => fh.2.Filename) = some name
    ∧ (uploadHandler templates r (State.start fs)).st.w.status = some StatusFound

instance (templates : Templates) (fs : FileSystem) (r : Request) (name : String) :
    Decidable (UploadSucceeds templates fs r name) := by
  unfold UploadSucceeds
  infer_instance

/-- The storage the upload handler leaves. -/
def afterUpload (templates : Templates) (fs : FileSystem) (r : Request) : FileSystem :=
  (uploadHandler templates r (State.start fs)).st.fs

/-- The directory exists and has no entries. -/
def EmptyDir (fs : FileSystem) (d : Path) : Prop :=
  fs.lookup d = some Node.dir ∧ fs.childNames d = []

instance (fs : FileSystem) (d : Path) : Decidable (EmptyDir fs d) := by
  unfold EmptyDir
  infer_instance

/-! ## Sample data -/

/-- A handler that panics at once with the given value. -/
def panicsWith (v : PanicValue) : HandlerFunc :=
  fun _ st => ⟨st, Completion.panicked v⟩

/-- A handler that writes some bytes to the response and then panics. -/
def writesThenPanics (data : String) (v : PanicValue) : HandlerFunc :=
  fun _ st => ⟨st.withW (fun w => w.Write data), Completion.panicked v⟩

/-- The JSON text of the record (12, "Afra", true). -/
def manJson : String := "\x7b\"Age\":12,\"Name\":\"Afra\",\"Sex\":true\x7d"

/-- The image names the list handler collects on a file system. -/
def listedImages (fs : FileSystem) : List String :=
  (ioutilReadDir fs UPLOAD_DIR).1.map FileInfo.Name

/-- A view that writes `<ul>` and then fails. -/
def brokenView : Template := fun _ => ("<ul>", some (errorsNew "boom"))

/-- The views with `brokenView` as `list.html`. -/
def brokenTemplates : Templates := fun key => if key = "list.html" then some brokenView else none

/-- A view that fails before it writes anything. -/
def failingView : Template := fun _ => ("", some (errorsNew "boom"))

/-- The views with `failingView` as `list.html`. -/
def failingTemplates : Templates :=
  fun key => if key = "list.html" then some failingView else none

/-- A tree with a storage root that holds `b.png`, and a view beside it. -/
def demoFs : FileSystem :=
  ⟨[(["src"], Node.dir), (["src", "uploads"], Node.dir),
    (["src", "uploads", "b.png"], Node.file "B1"),
    (["src", "views"], Node.dir), (["src", "views", "list.html"], Node.file "<ul></ul>")]⟩

/-- A tree whose storage root exists and is empty. -/
def emptyRootFs : FileSystem :=
  ⟨[(["src"], Node.dir), (["src", "uploads"], Node.dir)]⟩

/-- A GET request for a path with the given form values. -/
def getRequest (urlPath : String) (form : List (String × String)) : Request :=
  ⟨"GET", urlPath, "", form, none, []⟩

/-- A POST request to `/upload` whose field `image` holds one file. -/
def postImage (name body : String) : Request :=
  ⟨"POST", "/upload", "", [], none, [("image", name, ⟨body, none⟩)]⟩

/-- A name of 256 bytes. -/
def longName : String := String.mk (List.replicate 256 'a')

/-- A HEAD request for a path with the given form values. -/
def headRequest (urlPath : String) (form : List (String × String)) : Request :=
  ⟨"HEAD", urlPath, "", form, none, []⟩

/-- A view that writes the names it is given, one to a line. -/
def linesView : Template :=
  fun locals => (String.join (((locals.lookup "images").getD []).map (fun n => n ++ "\n")), none)

/-- The views with `linesView` as `list.html`. -/
def linesTemplates : Templates := fun key => if key = "list.html" then some linesView else none

/-- No views loaded. -/
def noTemplates : Templates := fun _ => none

/-! ## Lemmas on paths and the file system -/

theorem lookupEntry_filter_ne (p q : Path) (h : q ≠ p) (es : List (Path × Node)) :
    lookupEntry q (es.filter (fun e => !decide (e.1 = p))) = lookupEntry q es := by
  induction es with
  | nil => rfl
  | cons e rest ih =>
    by_cases hep : e.1 = p
    · have hq : ¬ e.1 = q := fun hh => h (hh ▸ hep)
      rw [List.filter_cons_of_neg (by simp [hep])]
      simp only [lookupEntry, hq, if_false]
      exact ih
    · rw [List.filter_cons_of_pos (by simp [hep])]
      by_cases heq : e.1 = q
      · simp only [lookupEntry, heq, if_true]
      · simp only [lookupEntry, heq, if_false]
        exact ih

theorem lookup_put_same (fs : FileSystem) (p : Path) (n : Node) (hp : p ≠ []) :
    (fs.put p n).lookup p = some n := by
  simp [FileSystem.lookup, FileSystem.put, lookupEntry, hp]

theorem lookup_put_other (fs : FileSystem) (p q : Path) (n : Node) (h : q ≠ p) :
    (fs.put p n).lookup q = fs.lookup q := by
  unfold FileSystem.lookup FileSystem.put
  by_cases hq : q = []
  · simp only [hq, if_true]
  · have hpq : ¬ p = q := fun hh => h hh.symm
    simp only [hq, lookupEntry, hpq, if_false]
    exact lookupEntry_filter_ne p q h fs.entries

theorem step_plain (cur : Path) (c : String) (h : PlainName c) : step cur c = cur ++ [c] := by
  obtain ⟨h1, h2, h3⟩ := h
  simp [step, h1, h2, h3]

theorem step_cases (cur : Path) (c : String) :
    (step cur c = cur ∧ (c = "" ∨ c = ".")) ∨ (step cur c = cur.dropLast ∧ c = "..")
      ∨ (step cur c = cur ++ [c] ∧ PlainName c) := by
  unfold step PlainName
  by_cases h1 : c = "" ∨ c = "."
  · left; simp [h1]
  · by_cases h2 : c = ".."
    · right; left; simp [h1, h2]
    · right; right
      push_neg at h1
      simp [h1.1, h1.2, h2]

theorem foldl_step_plain (cs : List String) (hcs : ∀ c ∈ cs, PlainName c) (cur : Path) :
    cs.foldl step cur = cur ++ cs := by
  induction cs generalizing cur with
  | nil => simp
  | cons c rest ih =>
    have hc := hcs c (List.mem_cons_self _ _)
    simp [List.foldl, step_plain cur c hc, ih (fun x hx => hcs x (List.mem_cons_of_mem _ hx))]

theorem step_allPlain (cur : Path) (c : String) (h : ∀ x ∈ cur, PlainName x) :
    ∀ x ∈ step cur c, PlainName x := by
  rcases step_cases cur c with ⟨e, _⟩ | ⟨e, _⟩ | ⟨e, hc⟩
  · rw [e]; exact h
  · rw [e]; intro x hx; exact h x (List.dropLast_subset _ hx)
  · rw [e]; intro x hx
    rcases List.mem_append.mp hx with hx | hx
    · exact h x hx
    · simp at hx; rw [hx]; exact hc

theorem foldl_step_allPlain (cs : List String) (cur : Path) (h : ∀ x ∈ cur, PlainName x) :
    ∀ x ∈ cs.foldl step cur, PlainName x := by
  induction cs generalizing cur with
  | nil => simpa using h
  | cons c rest ih => exact ih (step cur c) (step_allPlain cur c h)

theorem lexicalClean_plain (cs : List String) : ∀ x ∈ lexicalClean cs, PlainName x :=
  foldl_step_allPlain cs [] (by simp)

theorem prefixDirs_nil (fs : FileSystem) : PrefixDirs fs [] := by
  intro q hq hne
  exact absurd (List.prefix_nil.mp hq) hne

theorem prefixDirs_dropLast (fs : FileSystem) (p : Path) (h : PrefixDirs fs p) :
    PrefixDirs fs p.dropLast := by
  intro q hq hne
  have hp : p.dropLast <+: p := List.dropLast_prefix p
  refine h q (hq.trans hp) ?_
  intro hqp
  apply hne
  have h1 : q.length ≤ p.dropLast.length := hq.length_le
  have h2 : p.dropLast.length ≤ q.length := by rw [hqp]; exact hp.length_le
  exact List.IsPrefix.eq_of_length hq (Nat.le_antisymm h1 h2)

theorem prefixDirs_snoc (fs : FileSystem) (p : Path) (c : String) (h : PrefixDirs fs p)
    (hd : fs.lookup p = some Node.dir) : PrefixDirs fs (p ++ [c]) := by
  intro q hq hne
  rcases List.prefix_concat_iff.mp hq with hq | hq
  · exact absurd hq hne
  · by_cases hqp : q = p
    · rw [hqp]; exact hd
    · exact h q hq hqp

theorem lookup_dropLast_of_prefixDirs (fs : FileSystem) (p : Path) (h : PrefixDirs fs p) :
    fs.lookup p.dropLast = some Node.dir := by
  by_cases hp : p = []
  · simp [hp, FileSystem.lookup]
  · apply h _ (List.dropLast_prefix p)
    intro heq
    have := congrArg List.length heq
    simp at this
    have hl : 0 < p.length := List.length_pos.mpr hp
    omega

theorem splitAt_ne_nil (sep : Char → Bool) (cs : List Char) : splitAt sep cs ≠ [] := by
  cases cs with
  | nil => simp [splitAt]
  | cons c rest =>
    unfold splitAt
    split
    · simp
    · split <;> simp

theorem walk_cons_ok (fs : FileSystem) (cur : Path) (c : String) (cs : List String) (p : Path)
    (h : walk fs cur (c :: cs) = .ok p) :
    fs.lookup cur = some Node.dir ∧ walk fs (step cur c) cs = .ok p
      ∧ c.length ≤ NAME_MAX := by
  unfold walk at h
  split at h
  · rename_i hd
    split at h
    · cases h
    · rename_i hlen
      exact ⟨hd, h, Nat.le_of_not_lt hlen⟩
  · cases h
  · cases h

theorem walk_cons_eq (fs : FileSystem) (cur : Path) (c : String) (cs : List String)
    (hd : fs.lookup cur = some Node.dir) (hlen : c.length ≤ NAME_MAX) :
    walk fs cur (c :: cs) = walk fs (step cur c) cs := by
  have : ¬ NAME_MAX < c.length := Nat.not_lt.mpr hlen
  simp only [walk, hd, this, if_false]

theorem walk_lengths (fs : FileSystem) (cs : List String) (cur p : Path)
    (h : walk fs cur cs = .ok p) : ∀ c ∈ cs, c.length ≤ NAME_MAX := by
  induction cs generalizing cur with
  | nil => intro c hc; cases hc
  | cons x rest ih =>
    obtain ⟨_, hw, hlen⟩ := walk_cons_ok fs cur x rest p h
    intro c hc
    rcases List.mem_cons.mp hc with hc | hc
    · rw [hc]; exact hlen
    · exact ih (step cur x) hw c hc

theorem mem_step (cur : Path) (c x : String) (h : x ∈ step cur c) : x ∈ cur ∨ x = c := by
  rcases step_cases cur c with ⟨e, _⟩ | ⟨e, _⟩ | ⟨e, _⟩
  · rw [e] at h; exact Or.inl h
  · rw [e] at h; exact Or.inl (List.dropLast_subset _ h)
  · rw [e] at h
    rcases List.mem_append.mp h with h | h
    · exact Or.inl h
    · exact Or.inr (List.mem_singleton.mp h)

theorem mem_foldl_step (cs : List String) (cur : Path) (x : String)
    (h : x ∈ cs.foldl step cur) : x ∈ cur ∨ x ∈ cs := by
  induction cs generalizing cur with
  | nil => exact Or.inl h
  | cons c rest ih =>
    rcases ih (step cur c) h with h1 | h1
    · rcases mem_step cur c x h1 with h2 | h2
      · exact Or.inl h2
      · exact Or.inr (h2 ▸ List.mem_cons_self _ _)
    · exact Or.inr (List.mem_cons_of_mem _ h1)

theorem joinLen_append (a b : List String) : joinLen (a ++ b) = joinLen a + joinLen b := by
  simp [joinLen]

theorem joinLen_dropLast (l : List String) : joinLen l.dropLast ≤ joinLen l := by
  by_cases h : l = []
  · rw [h]; exact Nat.le_refl _
  · have := List.dropLast_append_getLast h
    calc joinLen l.dropLast ≤ joinLen l.dropLast + joinLen [l.getLast h] := Nat.le_add_right _ _
      _ = joinLen (l.dropLast ++ [l.getLast h]) := (joinLen_append _ _).symm
      _ = joinLen l := by rw [this]

theorem joinLen_step (cur : Path) (c : String) :
    joinLen (step cur c) ≤ joinLen cur + (c.length + 1) := by
  rcases step_cases cur c with ⟨e, _⟩ | ⟨e, _⟩ | ⟨e, _⟩
  · rw [e]; exact Nat.le_add_right _ _
  · rw [e]; exact Nat.le_trans (joinLen_dropLast cur) (Nat.le_add_right _ _)
  · rw [e, joinLen_append]; simp [joinLen]

theorem joinLen_foldl_step (cs : List String) (cur : Path) :
    joinLen (cs.foldl step cur) ≤ joinLen cur + joinLen cs := by
  induction cs generalizing cur with
  | nil => simp [joinLen]
  | cons c rest ih =>
    have h1 := ih (step cur c)
    have h2 := joinLen_step cur c
    have h3 : joinLen (c :: rest) = (c.length + 1) + joinLen rest := by simp [joinLen]
    simp only [List.foldl]
    omega

theorem joinLen_cons (c : String) (cs : List String) :
    joinLen (c :: cs) = (c.length + 1) + joinLen cs := by
  simp [joinLen]

theorem joinLen_splitAt (sep : Char → Bool) (cs : List Char) :
    joinLen ((splitAt sep cs).map String.mk) = cs.length + 1 := by
  induction cs with
  | nil => rfl
  | cons c rest ih =>
    unfold splitAt
    split
    · rw [List.map_cons, joinLen_cons, ih]
      simp only [String.length, List.length_nil, List.length_cons]
      omega
    · cases hs : splitAt sep rest with
      | nil => exact absurd hs (splitAt_ne_nil sep rest)
      | cons x xs =>
        rw [hs, List.map_cons, joinLen_cons] at ih
        simp only [String.length] at ih
        simp only [List.map_cons, joinLen_cons, String.length, List.length_cons]
        omega

theorem joinLen_components (s : String) : joinLen (components s) = s.length + 1 :=
  joinLen_splitAt _ s.data

theorem walk_spec (fs : FileSystem) (cs : List String) (cur p : Path)
    (h : walk fs cur cs = .ok p) (hcur : PrefixDirs fs cur) :
    cs.foldl step cur = p ∧ PrefixDirs fs p := by
  induction cs generalizing cur with
  | nil =>
    simp only [walk, Except.ok.injEq] at h
    subst h
    exact ⟨rfl, hcur⟩
  | cons c rest ih =>
    obtain ⟨hd, hw, _⟩ := walk_cons_ok fs cur c rest p h
    have hstep : PrefixDirs fs (step cur c) := by
      rcases step_cases cur c with ⟨e, _⟩ | ⟨e, _⟩ | ⟨e, _⟩
      · rw [e]; exact hcur
      · rw [e]; exact prefixDirs_dropLast fs cur hcur
      · rw [e]; exact prefixDirs_snoc fs cur c hcur hd
    exact ih (step cur c) hw hstep

theorem walk_snoc (fs : FileSystem) (init : List String) (last : String) (cur p : Path)
    (h : walk fs cur (init ++ [last]) = .ok p) :
    ∃ d, walk fs cur init = .ok d ∧ fs.lookup d = some Node.dir ∧ p = step d last := by
  induction init generalizing cur with
  | nil =>
    obtain ⟨hd, hw, _⟩ := walk_cons_ok fs cur last [] p h
    simp only [walk, Except.ok.injEq] at hw
    exact ⟨cur, rfl, hd, hw.symm⟩
  | cons c rest ih =>
    obtain ⟨hd, hw, hlen⟩ := walk_cons_ok fs cur c (rest ++ [last]) p h
    obtain ⟨d, h1, h2, h3⟩ := ih (step cur c) hw
    refine ⟨d, ?_, h2, h3⟩
    rw [walk_cons_eq fs cur c rest hd hlen]
    exact h1

theorem walk_plain (fs : FileSystem) (cs : List String) (cur : Path)
    (hcs : ∀ c ∈ cs, PlainName c) (hlen : ∀ c ∈ cs, c.length ≤ NAME_MAX)
    (hd : ∀ k, k < cs.length → fs.lookup (cur ++ cs.take k) = some Node.dir) :
    walk fs cur cs = .ok (cur ++ cs) := by
  induction cs generalizing cur with
  | nil => simp [walk]
  | cons c rest ih =>
    have h0 : fs.lookup cur = some Node.dir := by
      have := hd 0 (by simp)
      simpa using this
    have hc := hcs c (List.mem_cons_self _ _)
    rw [walk_cons_eq fs cur c rest h0 (hlen c (List.mem_cons_self _ _)), step_plain cur c hc]
    have := ih (cur ++ [c]) (fun x hx => hcs x (List.mem_cons_of_mem _ hx))
      (fun x hx => hlen x (List.mem_cons_of_mem _ hx)) (by
      intro k hk
      have := hd (k + 1) (by simpa using hk)
      simpa using this)
    simpa using this

theorem walk_of_prefixDirs (fs : FileSystem) (p : Path) (hp : ∀ c ∈ p, PlainName c)
    (hlen : ∀ c ∈ p, c.length ≤ NAME_MAX)
    (hd : PrefixDirs fs p) : walk fs [] p = .ok p := by
  have := walk_plain fs p [] hp hlen (by
    intro k hk
    simp only [List.nil_append]
    apply hd _ (List.take_prefix k p)
    intro he
    have := congrArg List.length he
    simp at this
    omega)
  simpa using this

theorem components_ne_nil (s : String) : components s ≠ [] := by
  unfold components
  simp [splitAt_ne_nil]

theorem components_split (s : String) :
    ∃ init last, components s = init ++ [last] ∧ (components s).dropLast = init
      ∧ (components s).getLast? = some last := by
  have h := components_ne_nil s
  refine ⟨(components s).dropLast, (components s).getLast h, ?_, rfl, ?_⟩
  · exact (List.dropLast_append_getLast h).symm
  · exact List.getLast?_eq_getLast _ h

theorem splitAt_chars (sep : Char → Bool) (cs : List Char) :
    ∀ x ∈ splitAt sep cs, ∀ ch ∈ x, ch ∈ cs := by
  induction cs with
  | nil =>
    intro x hx ch hch
    simp only [splitAt, List.mem_singleton] at hx
    rw [hx] at hch
    exact hch
  | cons c rest ih =>
    intro x hx ch hch
    unfold splitAt at hx
    split at hx
    · rcases List.mem_cons.mp hx with hx | hx
      · rw [hx] at hch; cases hch
      · exact List.mem_cons_of_mem _ (ih x hx ch hch)
    · cases hs : splitAt sep rest with
      | nil => exact absurd hs (splitAt_ne_nil sep rest)
      | cons y ys =>
        rw [hs] at hx ih
        simp only at hx
        rcases List.mem_cons.mp hx with hx | hx
        · rw [hx] at hch
          rcases List.mem_cons.mp hch with hch | hch
          · rw [hch]; exact List.mem_cons_self _ _
          · exact List.mem_cons_of_mem _ (ih y (List.mem_cons_self _ _) ch hch)
        · exact List.mem_cons_of_mem _ (ih x (List.mem_cons_of_mem _ hx) ch hch)

theorem components_noNul (path : String) (h : hasNul path = false) :
    ∀ c ∈ components path, hasNul c = false := by
  intro c hc
  unfold components at hc
  obtain ⟨x, hx, hxc⟩ := List.mem_map.mp hc
  subst hxc
  unfold hasNul at h ⊢
  rw [List.any_eq_false] at h ⊢
  intro ch hch
  exact h ch (splitAt_chars _ _ x hx ch hch)

/-- What a successful resolution of a name to something that is not a
directory says about the name: the location is the one `ServeFile` opens, it is
not the root, its components are names, and the directories above it exist. -/
theorem resolve_nondir (fs : FileSystem) (name : String) (p : Path)
    (h : resolve fs name = .ok p) (hnd : fs.lookup p ≠ some Node.dir) :
    serveTarget name = p ∧ cleanPath name = p ∧ p ≠ [] ∧ (∀ c ∈ p, PlainName c)
      ∧ PrefixDirs fs p
      ∧ (∃ init last, components name = init ++ [last] ∧ PlainName last
          ∧ p = lexicalClean init ++ [last])
      ∧ joinLen p ≤ PATH_MAX ∧ (∀ c ∈ p, c.length ≤ NAME_MAX)
      ∧ p.any hasNul = false := by
  unfold resolve at h
  split at h
  · cases h
  rename_i hnul
  split at h
  · cases h
  split at h
  · cases h
  rename_i hlenPath
  obtain ⟨init, last, hsplit, hinit, hlast⟩ := components_split name
  have hw := h
  rw [hsplit] at hw
  obtain ⟨d, hwd, hdd, hp⟩ := walk_snoc fs init last [] p hw
  obtain ⟨hclean, hpd⟩ := walk_spec fs init [] d hwd (prefixDirs_nil fs)
  obtain ⟨hcleanAll, hpp⟩ := walk_spec fs (components name) [] p h (prefixDirs_nil fs)
  have hplainLast : PlainName last := by
    rcases step_cases d last with ⟨e, _⟩ | ⟨e, _⟩ | ⟨_, hc⟩
    · exfalso; apply hnd; rw [hp, e]; exact hdd
    · exfalso; apply hnd; rw [hp, e]; exact lookup_dropLast_of_prefixDirs fs d hpd
    · exact hc
  have hpe : p = d ++ [last] := by rw [hp, step_plain d last hplainLast]
  have hfit1 : joinLen p ≤ PATH_MAX := by
    have h1 := joinLen_foldl_step (components name) []
    rw [hcleanAll, joinLen_components] at h1
    have h2 : joinLen ([] : List String) = 0 := rfl
    omega
  have hfit2 : ∀ c ∈ p, c.length ≤ NAME_MAX := by
    intro c hc
    rw [← hcleanAll] at hc
    rcases mem_foldl_step _ _ c hc with hc | hc
    · cases hc
    · exact walk_lengths fs _ [] p h c hc
  have hfit3 : p.any hasNul = false := by
    rw [List.any_eq_false]
    intro c hc
    rw [← hcleanAll] at hc
    rcases mem_foldl_step _ _ c hc with hc | hc
    · cases hc
    · have := components_noNul name (by simpa using hnul) c hc
      simp [this]
  refine ⟨?_, hcleanAll, ?_, ?_, hpp, ⟨init, last, hsplit, hplainLast, by
    rw [hpe]; unfold lexicalClean; rw [hclean]⟩, hfit1, hfit2, hfit3⟩
  · unfold serveTarget
    simp only [hinit, hlast, Option.getD_some]
    have h1 := hplainLast.1
    have h2 := hplainLast.2.1
    have h3 := hplainLast.2.2
    simp only [h1, h2, h3, or_self, if_false]
    rw [hpe]
    unfold lexicalClean
    rw [hclean]
  · rw [hpe]; simp
  · rw [← hcleanAll]; exact lexicalClean_plain _

theorem lookupEntry_ne_none (p : Path) (es : List (Path × Node)) :
    lookupEntry p es ≠ none ↔ ∃ e ∈ es, e.1 = p := by
  induction es with
  | nil =>
    constructor
    · intro h; exact absurd rfl h
    · rintro ⟨e, he, _⟩; cases he
  | cons e rest ih =>
    by_cases h : e.1 = p
    · constructor
      · intro _; exact ⟨e, List.mem_cons_self _ _, h⟩
      · intro _
        simp only [lookupEntry, h, if_true]
        exact Option.some_ne_none _
    · simp only [lookupEntry, h, if_false]
      rw [ih]
      constructor
      · rintro ⟨x, hx, hxp⟩; exact ⟨x, List.mem_cons_of_mem _ hx, hxp⟩
      · rintro ⟨x, hx, hxp⟩
        rcases List.mem_cons.mp hx with hx | hx
        · exact absurd (hx ▸ hxp) h
        · exact ⟨x, hx, hxp⟩

theorem dropLast_getLast_iff (p d : Path) (n : String) :
    (p.dropLast = d ∧ p.getLast? = some n) ↔ p = d ++ [n] := by
  constructor
  · rintro ⟨h1, h2⟩
    have hne : p ≠ [] := by
      intro h; rw [h] at h2; simp at h2
    have := List.dropLast_append_getLast hne
    rw [List.getLast?_eq_getLast _ hne] at h2
    simp only [Option.some.injEq] at h2
    rw [← this, h1, h2]
  · intro h
    subst h
    simp

theorem mem_childNames (fs : FileSystem) (d : Path) (n : String) :
    n ∈ fs.childNames d ↔ fs.lookup (d ++ [n]) ≠ none := by
  have hne : d ++ [n] ≠ [] := by simp
  unfold FileSystem.childNames FileSystem.lookup
  simp only [hne, if_false, lookupEntry_ne_none, List.mem_dedup, List.mem_filterMap]
  constructor
  · rintro ⟨e, he, hx⟩
    refine ⟨e, he, ?_⟩
    by_cases hd : e.1.dropLast = d
    · simp only [hd, if_true] at hx
      exact (dropLast_getLast_iff e.1 d n).mp ⟨hd, hx⟩
    · simp [hd] at hx
  · rintro ⟨e, he, hx⟩
    refine ⟨e, he, ?_⟩
    obtain ⟨h1, h2⟩ := (dropLast_getLast_iff e.1 d n).mpr hx
    simp only [h1, if_true, h2]

theorem resolve_clean (fs : FileSystem) (path : String) (d : Path)
    (h : resolve fs path = .ok d) : d = cleanPath path := by
  unfold resolve at h
  split at h
  · cases h
  · split at h
    · cases h
    · split at h
      · cases h
      · exact ((walk_spec fs _ [] d h (prefixDirs_nil fs)).1).symm

/-- A successful directory read, spelled out. -/
theorem ioutilReadDir_ok (fs : FileSystem) (path : String)
    (h : (ioutilReadDir fs path).2 = none) :
    resolve fs path = .ok (cleanPath path)
    ∧ fs.lookup (cleanPath path) = some Node.dir
    ∧ (ioutilReadDir fs path).1.map FileInfo.Name
        = (fs.childNames (cleanPath path)).insertionSort
            (fun a b => bytesLE a.data b.data = true) := by
  unfold ioutilReadDir at h ⊢
  cases hr : resolve fs path with
  | error e => simp [hr] at h
  | ok d =>
    have hd := resolve_clean fs path d hr
    subst hd
    simp only [hr] at h ⊢
    cases hl : fs.lookup (cleanPath path) with
    | none => simp [hl] at h
    | some n =>
      cases n with
      | file c => simp [hl] at h
      | dir =>
        simp only [hl, List.map_map, true_and]
        have : (FileInfo.Name ∘ fun n =>
            (⟨n, decide (fs.lookup (cleanPath path ++ [n]) = some Node.dir)⟩ : FileInfo))
            = id := by
          funext x; rfl
        rw [this, List.map_id]

theorem listedImages_spec (fs : FileSystem) (h : (ioutilReadDir fs UPLOAD_DIR).2 = none) :
    (listedImages fs).Nodup
    ∧ ∀ n, n ∈ listedImages fs ↔ fs.lookup (cleanPath UPLOAD_DIR ++ [n]) ≠ none := by
  obtain ⟨_, _, hnames⟩ := ioutilReadDir_ok fs UPLOAD_DIR h
  unfold listedImages
  rw [hnames]
  have hperm := List.perm_insertionSort (fun a b : String => bytesLE a.data b.data = true)
    (fs.childNames (cleanPath UPLOAD_DIR))
  refine ⟨hperm.nodup_iff.mpr (List.nodup_dedup _), ?_⟩
  intro n
  rw [hperm.mem_iff]
  exact mem_childNames fs _ n

theorem splitAt_noSep (sep : Char → Bool) (cs : List Char) (h : ∀ c ∈ cs, sep c = false) :
    splitAt sep cs = [cs] := by
  induction cs with
  | nil => rfl
  | cons c rest ih =>
    have hc := h c (List.mem_cons_self _ _)
    have := ih (fun x hx => h x (List.mem_cons_of_mem _ hx))
    simp [splitAt, hc, this]

theorem components_upload (a : String) (ha : '/' ∉ a.data) :
    components (UPLOAD_DIR ++ "/" ++ a) = [".", "src", "uploads"] ++ [a] := by
  have hsplit : splitAt (fun c => decide (c = '/')) a.data = [a.data] := by
    apply splitAt_noSep
    intro c hc
    simp only [decide_eq_false_iff_not]
    intro h; exact ha (h ▸ hc)
  have hdata : (UPLOAD_DIR ++ "/" ++ a).data
      = '.' :: '/' :: 's' :: 'r' :: 'c' :: '/' :: 'u' :: 'p' :: 'l' :: 'o' :: 'a' :: 'd'
        :: 's' :: '/' :: a.data := rfl
  unfold components
  rw [hdata]
  simp [splitAt, hsplit]

/-! ## Lemmas on the library models and the handlers -/

theorem osCreate_ok (fs fs1 : FileSystem) (path : String) (file : OpenFile)
    (h : osCreate fs path = .ok (fs1, file)) :
    resolve fs path = .ok file.loc ∧ fs.lookup file.loc ≠ some Node.dir
      ∧ fs1 = fs.put file.loc (Node.file "") ∧ file.offset = 0 := by
  unfold osCreate at h
  split at h
  · cases h
  · rename_i q hq
    split at h
    · cases h
    · rename_i hnd
      simp only [Except.ok.injEq, Prod.mk.injEq] at h
      obtain ⟨h1, h2⟩ := h
      subst h2
      exact ⟨hq, fun hh => hnd hh, h1.symm, rfl⟩

theorem writeAt_empty (data : String) : writeAt "" 0 data = data := by
  unfold writeAt
  split
  · rename_i h; exact h.symm
  · simp

theorem ioCopy_snd (fs : FileSystem) (dst : OpenFile) (src : MultipartFile) :
    (ioCopy fs dst src).2 = src.readErr := by
  unfold ioCopy
  split <;> rfl

/-- The copy into a file that `os.Create` has just created or truncated leaves
exactly the bytes of the source in it. -/
theorem ioCopy_after_create (fs fs1 : FileSystem) (path : String) (file : OpenFile)
    (src : MultipartFile) (h : osCreate fs path = .ok (fs1, file)) (hne : file.loc ≠ []) :
    (ioCopy fs1 file src).1 = fs1.put file.loc (Node.file src.content) := by
  obtain ⟨_, _, hfs1, hoff⟩ := osCreate_ok fs fs1 path file h
  have hl : fs1.lookup file.loc = some (Node.file "") := by
    rw [hfs1]; exact lookup_put_same _ _ _ hne
  unfold ioCopy
  simp only [hl, hoff, writeAt_empty]

theorem openNode_ok (fs : FileSystem) (t : Path) (n : Node) (ht : ∀ c ∈ t, PlainName c)
    (h : openNode fs t = .ok n) : fs.lookup t = some n ∧ PrefixDirs fs t := by
  unfold openNode at h
  split at h
  · cases h
  split at h
  · cases h
  split at h
  · cases h
  · rename_i q hq
    obtain ⟨h1, h2⟩ := walk_spec fs t [] q hq (prefixDirs_nil fs)
    rw [foldl_step_plain t ht] at h1
    simp only [List.nil_append] at h1
    subst h1
    split at h
    · rename_i m hm
      simp only [Except.ok.injEq] at h
      subst h
      exact ⟨hm, h2⟩
    · cases h

theorem openNode_of_lookup (fs : FileSystem) (t : Path) (n : Node) (ht : ∀ c ∈ t, PlainName c)
    (hfit : joinLen t ≤ PATH_MAX) (hlen : ∀ c ∈ t, c.length ≤ NAME_MAX)
    (hnul : t.any hasNul = false)
    (hd : PrefixDirs fs t) (hl : fs.lookup t = some n) : openNode fs t = .ok n := by
  unfold openNode
  have : ¬ PATH_MAX < joinLen t := Nat.not_lt.mpr hfit
  rw [walk_of_prefixDirs fs t ht hlen hd]
  simp only [hnul, Bool.false_eq_true, this, if_false, hl]

theorem serveTarget_plain (name : String) : ∀ c ∈ serveTarget name, PlainName c := by
  unfold serveTarget
  simp only
  split
  · exact lexicalClean_plain _
  · rename_i hf
    intro c hc
    rcases List.mem_append.mp hc with hc | hc
    · exact lexicalClean_plain _ c hc
    · simp only [List.mem_singleton] at hc
      subst hc
      unfold PlainName
      push_neg at hf
      exact hf

theorem serveTarget_cases (name : String) :
    serveTarget name = cleanPath name ∨ cleanPath name = (serveTarget name).dropLast := by
  obtain ⟨init, last, hsplit, hinit, hlast⟩ := components_split name
  have hc : cleanPath name = step (lexicalClean init) last := by
    unfold cleanPath lexicalClean
    rw [hsplit, List.foldl_append]
    rfl
  unfold serveTarget
  simp only [hinit, hlast, Option.getD_some]
  rcases step_cases (lexicalClean init) last with ⟨e, hs⟩ | ⟨e, hs⟩ | ⟨e, hs⟩
  · left
    rw [hc, e]
    rcases hs with hs | hs <;> simp [hs]
  · right
    rw [hc, e]
    simp [hs]
  · left
    rw [hc, e]
    simp [hs.1, hs.2.1, hs.2.2]

theorem serveTarget_mem (name : String) (c : String) (h : c ∈ serveTarget name) :
    c ∈ components name := by
  obtain ⟨init, last, hsplit, hinit, hlast⟩ := components_split name
  unfold serveTarget at h
  simp only [hinit, hlast, Option.getD_some] at h
  rw [hsplit]
  have hdir : ∀ x ∈ lexicalClean init, x ∈ init ++ [last] := by
    intro x hx
    rcases mem_foldl_step init [] x hx with hx | hx
    · cases hx
    · exact List.mem_append_left _ hx
  split at h
  · exact hdir c h
  · rcases List.mem_append.mp h with h | h
    · exact hdir c h
    · exact List.mem_append_right _ h

theorem serveTarget_joinLen (name : String) :
    joinLen (serveTarget name) ≤ joinLen (components name) := by
  obtain ⟨init, last, hsplit, hinit, hlast⟩ := components_split name
  have hdir : joinLen (lexicalClean init) ≤ joinLen init := by
    have := joinLen_foldl_step init []
    have h0 : joinLen ([] : List String) = 0 := rfl
    unfold lexicalClean
    omega
  unfold serveTarget
  simp only [hinit, hlast, Option.getD_some]
  rw [hsplit, joinLen_append]
  split
  · omega
  · rw [joinLen_append]; omega

theorem walk_error_cases (fs : FileSystem) (cs : List String) (cur : Path) (e : Errno)
    (hlen : ∀ c ∈ cs, c.length ≤ NAME_MAX) (h : walk fs cur cs = .error e) :
    e = Errno.ENOENT ∨ e = Errno.ENOTDIR := by
  induction cs generalizing cur with
  | nil => cases h
  | cons c rest ih =>
    unfold walk at h
    split at h
    · have : ¬ NAME_MAX < c.length := Nat.not_lt.mpr (hlen c (List.mem_cons_self _ _))
      simp only [this, if_false] at h
      exact ih (step cur c) (fun x hx => hlen x (List.mem_cons_of_mem _ hx)) h
    · cases h; exact Or.inr rfl
    · cases h; exact Or.inl rfl

/-- When the walk along names stops at something that is not a directory, the
loop of `mapOpenError` finds that regular file and answers not-exist. -/
theorem mapOpenErrorFrom_enotdir (fs : FileSystem) (cs : List String) (done : Path)
    (hcs : ∀ c ∈ cs, PlainName c) (hdone : ∀ c ∈ done, PlainName c)
    (hlen : ∀ c ∈ done ++ cs, c.length ≤ NAME_MAX)
    (hfit : joinLen (done ++ cs) ≤ PATH_MAX)
    (hnul : (done ++ cs).any hasNul = false)
    (hd : fs.lookup done = some Node.dir) (hpd : PrefixDirs fs done)
    (h : walk fs done cs = .error Errno.ENOTDIR) :
    mapOpenErrorFrom fs Errno.ENOTDIR done cs = Errno.ENOENT := by
  induction cs generalizing done with
  | nil => cases h
  | cons c rest ih =>
    have hc := hcs c (List.mem_cons_self _ _)
    have hclen : c.length ≤ NAME_MAX := hlen c (by simp)
    rw [walk_cons_eq fs done c rest hd hclen, step_plain done c hc] at h
    have hplain' : ∀ x ∈ done ++ [c], PlainName x := by
      intro x hx
      rcases List.mem_append.mp hx with hx | hx
      · exact hdone x hx
      · rw [List.mem_singleton.mp hx]; exact hc
    have hlen' : ∀ x ∈ done ++ [c], x.length ≤ NAME_MAX := by
      intro x hx
      apply hlen x
      rcases List.mem_append.mp hx with hx | hx
      · exact List.mem_append_left _ hx
      · rw [List.mem_singleton.mp hx]; simp
    have hfit' : joinLen (done ++ [c]) ≤ PATH_MAX := by
      have h1 : joinLen (done ++ c :: rest) = joinLen (done ++ [c]) + joinLen rest := by
        rw [← joinLen_append]; simp
      omega
    have hpd' : PrefixDirs fs (done ++ [c]) := prefixDirs_snoc fs done c hpd hd
    have hnul' : (done ++ [c]).any hasNul = false := by
      rw [List.any_eq_false] at hnul ⊢
      intro x hx
      apply hnul x
      rcases List.mem_append.mp hx with hx | hx
      · exact List.mem_append_left _ hx
      · rw [List.mem_singleton.mp hx]; simp
    unfold mapOpenErrorFrom
    cases hl : fs.lookup (done ++ [c]) with
    | none =>
      exfalso
      cases rest with
      | nil => cases h
      | cons c2 rest2 =>
        unfold walk at h
        rw [hl] at h
        cases h
    | some n =>
      rw [openNode_of_lookup fs _ n hplain' hfit' hlen' hnul' hpd' hl]
      cases n with
      | file content => rfl
      | dir =>
        simp only
        apply ih (done ++ [c]) (fun x hx => hcs x (List.mem_cons_of_mem _ hx)) hplain'
        · intro x hx; apply hlen x; simpa using hx
        · simpa using hfit
        · simpa using hnul
        · exact hl
        · exact hpd'
        · exact h

/-- Nothing at the cleaned location of a name that is within the length
limits: `ServeFile` cannot open it, and the error is, or is mapped to,
not-exist. -/
theorem serve_missing (fs : FileSystem) (name : String)
    (h : fs.lookup (cleanPath name) = none) (hlim : WellFormedPath name) :
    ∃ e, openNode fs (serveTarget name) = .error e
      ∧ mapOpenError fs e (serveTarget name) = Errno.ENOENT := by
  have hplain := serveTarget_plain name
  have hlen : ∀ c ∈ serveTarget name, c.length ≤ NAME_MAX :=
    fun c hc => hlim.2.2 c (serveTarget_mem name c hc)
  have hfit : joinLen (serveTarget name) ≤ PATH_MAX := by
    have h1 := serveTarget_joinLen name
    have h2 := joinLen_components name
    have h3 := hlim.2.1
    omega
  have hnul : (serveTarget name).any hasNul = false := by
    rw [List.any_eq_false]
    intro c hc
    have := components_noNul name hlim.1 c (serveTarget_mem name c hc)
    simp [this]
  cases hopen : openNode fs (serveTarget name) with
  | ok n =>
    exfalso
    obtain ⟨hl, hp⟩ := openNode_ok fs _ n hplain hopen
    rcases serveTarget_cases name with hc | hc
    · rw [hc, h] at hl; cases hl
    · have := lookup_dropLast_of_prefixDirs fs _ hp
      rw [← hc, h] at this
      cases this
  | error e =>
    refine ⟨e, rfl, ?_⟩
    unfold mapOpenError
    by_cases he : e = Errno.ENOENT
    · simp only [he, if_true]
    · simp only [he, if_false]
      unfold openNode at hopen
      have hnot : ¬ PATH_MAX < joinLen (serveTarget name) := Nat.not_lt.mpr hfit
      simp only [hnul, Bool.false_eq_true, hnot, if_false] at hopen
      cases hw : walk fs [] (serveTarget name) with
      | ok q =>
        rw [hw] at hopen
        simp only at hopen
        split at hopen
        · cases hopen
        · simp only [Except.error.injEq] at hopen
          exact absurd hopen.symm he
      | error e2 =>
        rw [hw] at hopen
        simp only [Except.error.injEq] at hopen
        subst hopen
        rcases walk_error_cases fs _ [] e2 hlen hw with h1 | h1
        · exact absurd h1 he
        · subst h1
          exact mapOpenErrorFrom_enotdir fs (serveTarget name) [] hplain (by simp)
            (by simpa using hlen) (by simpa using hfit) (by simpa using hnul) rfl
            (prefixDirs_nil fs) hw

theorem components_getLast_noNul (path : String) (h : hasNul path = false) :
    hasNul ((components path).getLast?.getD "") = false := by
  obtain ⟨init, last, hsplit, _, hlast⟩ := components_split path
  rw [hlast]
  exact components_noNul path h last (by rw [hsplit]; simp)

theorem viewImageHandler_eq (r : Request) (st : State) (hRoute : r.urlPath = "/view")
    (hNul : hasNul (UPLOAD_DIR ++ "/" ++ r.FormValue "id") = false) :
    viewImageHandler r st =
      ⟨match openNode st.fs (serveTarget (UPLOAD_DIR ++ "/" ++ r.FormValue "id")) with
        | .error e =>
          ((st.withW (fun w => w.headerSet "Content-Type" "image")).log
            (Call.serveFile (UPLOAD_DIR ++ "/" ++ r.FormValue "id"))).withW
            (fun w => httpError w
              (toHTTPError (mapOpenError st.fs e
                (serveTarget (UPLOAD_DIR ++ "/" ++ r.FormValue "id")))).1
              (toHTTPError (mapOpenError st.fs e
                (serveTarget (UPLOAD_DIR ++ "/" ++ r.FormValue "id")))).2)
        | .ok (Node.file content) =>
          ((st.withW (fun w => w.headerSet "Content-Type" "image")).log
            (Call.serveFile (UPLOAD_DIR ++ "/" ++ r.FormValue "id"))).withW
            (fun w => serveContent w r content)
        | .ok Node.dir =>
          ((st.withW (fun w => w.headerSet "Content-Type" "image")).log
            (Call.serveFile (UPLOAD_DIR ++ "/" ++ r.FormValue "id"))).withW
            (fun w => localRedirect w r "view/"),
       Completion.returned⟩ := by
  have h1 : containsDotDot r.urlPath = false := by rw [hRoute]; decide
  have h2 : hasSuffix r.urlPath "/index.html" = false := by rw [hRoute]; decide
  have h3 : hasSuffix r.urlPath "/" = false := by rw [hRoute]; decide
  have h4 : pathBase r.urlPath ++ "/" = "view/" := by rw [hRoute]; decide
  have h5 := components_getLast_noNul _ hNul
  unfold viewImageHandler httpServeFile
  simp only [h1, h2, h3, h4, h5, State.log, State.withW]
  simp only [Bool.false_eq_true, if_false, Bool.not_false, if_true]

theorem uploadHandler_post_ok (templates : Templates) (r : Request) (st : State)
    (f : MultipartFile) (h : FileHeader) (fs1 : FileSystem) (tempFile : OpenFile)
    (hMethod : r.Method = "POST")
    (hExtract : r.FormFile "image" = .ok (f, h))
    (hCreate : osCreate st.fs (UPLOAD_DIR ++ "/" ++ h.Filename) = .ok (fs1, tempFile))
    (hCopy : (ioCopy fs1 tempFile f).2 = none) :
    uploadHandler templates r st =
      ⟨{ fs := (ioCopy fs1 tempFile f).1,
         w := httpRedirect st.w r ("/view?id=" ++ h.Filename) StatusFound,
         trace := st.trace ++ [Call.formFile "image"]
           ++ [Call.create (UPLOAD_DIR ++ "/" ++ h.Filename)] ++ [Call.copy tempFile] },
       Completion.returned⟩ := by
  have hg : ¬ ("POST" = "GET") := by decide
  have hpair : ioCopy fs1 tempFile f = ((ioCopy fs1 tempFile f).1, none) := by
    rw [← hCopy]
  unfold uploadHandler
  simp only [hMethod, hg, if_false, if_true, hExtract, State.log, hCreate, State.withW]
  rw [hpair]

theorem uploadHandler_post_noFile (templates : Templates) (r : Request) (st : State)
    (e : GoError) (hMethod : r.Method = "POST") (hExtract : r.FormFile "image" = .error e) :
    uploadHandler templates r st =
      ⟨{ fs := st.fs, w := httpError st.w e.msg StatusInternalServerError,
         trace := st.trace ++ [Call.formFile "image"] }, Completion.returned⟩ := by
  have hg : ¬ ("POST" = "GET") := by decide
  unfold uploadHandler
  simp only [hMethod, hg, if_false, if_true, hExtract, State.log, replyWithError, callError,
    State.withW]

theorem httpError_fresh (text : String) (code : Nat) :
    (httpError ResponseWriter.fresh text code).status = some code
      ∧ (httpError ResponseWriter.fresh text code).body = text ++ "\n"
      ∧ (httpError ResponseWriter.fresh text code).header.lookup "Location" = none := by
  refine ⟨rfl, ?_, rfl⟩
  simp [httpError, ResponseWriter.fresh, ResponseWriter.Write, ResponseWriter.WriteHeader,
    ResponseWriter.headerSet, ResponseWriter.headerDel]

theorem httpError_body (w : ResponseWriter) (text : String) (code : Nat) :
    (httpError w text code).body = w.body ++ (text ++ "\n") := by
  unfold httpError ResponseWriter.Write ResponseWriter.WriteHeader ResponseWriter.headerSet
    ResponseWriter.headerDel
  cases hs : w.status <;> simp [hs]

theorem httpError_status_none (w : ResponseWriter) (text : String) (code : Nat)
    (h : w.status = none) : (httpError w text code).status = some code := by
  unfold httpError ResponseWriter.Write ResponseWriter.WriteHeader ResponseWriter.headerSet
    ResponseWriter.headerDel
  simp [h]

theorem httpError_status_some (w : ResponseWriter) (text : String) (code c : Nat)
    (h : w.status = some c) : (httpError w text code).status = some c := by
  unfold httpError ResponseWriter.Write ResponseWriter.WriteHeader ResponseWriter.headerSet
    ResponseWriter.headerDel
  simp [h]

theorem httpServeFile_frame (r : Request) (name : String) (st : State) :
    (httpServeFile r name st).trace = st.trace ++ [Call.serveFile name]
      ∧ (httpServeFile r name st).fs = st.fs := by
  unfold httpServeFile
  simp only [State.log, State.withW]
  split
  · exact ⟨rfl, rfl⟩
  · split
    · exact ⟨rfl, rfl⟩
    · split
      · exact ⟨rfl, rfl⟩
      · split
        · exact ⟨rfl, rfl⟩
        · exact ⟨rfl, rfl⟩
        · split
          · exact ⟨rfl, rfl⟩
          · split <;> exact ⟨rfl, rfl⟩

theorem filepathBase_cases (path : String) :
    '/' ∉ (filepathBase path).data ∨ filepathBase path = "/" := by
  unfold filepathBase
  split
  · left; decide
  · simp only
    split
    · right; rfl
    · left
      intro hmem
      have h1 := List.mem_reverse.mp hmem
      have h2 := List.mem_takeWhile_imp h1
      simp at h2

theorem formFile_name (r : Request) (key : String) (f : MultipartFile) (h : FileHeader)
    (hf : r.FormFile key = .ok (f, h)) : '/' ∉ h.Filename.data ∨ h.Filename = "/" := by
  unfold Request.FormFile at hf
  split at hf
  · cases hf
  · split at hf
    · rename_i kf _
      simp only [Except.ok.injEq, Prod.mk.injEq] at hf
      rw [← hf.2]
      exact filepathBase_cases kf.2.1
    · cases hf

/-- The wrapper on a handler call that panics with an `error`. -/
theorem safeHandler_error (fn : HandlerFunc) (r : Request) (st : State) (e : GoError)
    (h : (fn r st).result = Completion.panicked (PanicValue.error e)) :
    safeHandler fn r st
      = ⟨(fn r st).st.withW (fun w => httpError w e.msg StatusInternalServerError),
         Completion.returned⟩ := by
  unfold safeHandler
  simp only [h, recover]

theorem uploadHandler_post_createFails (templates : Templates) (r : Request) (st : State)
    (f : MultipartFile) (h : FileHeader) (e : GoError)
    (hMethod : r.Method = "POST") (hExtract : r.FormFile "image" = .ok (f, h))
    (hCreate : osCreate st.fs (UPLOAD_DIR ++ "/" ++ h.Filename) = .error e) :
    (uploadHandler templates r st).st.w = httpError st.w e.msg StatusInternalServerError
    ∧ (uploadHandler templates r st).st.fs = st.fs := by
  have hg : ¬ ("POST" = "GET") := by decide
  unfold uploadHandler
  simp only [hMethod, hg, if_false, if_true, hExtract, State.log, hCreate, replyWithError,
    callError, State.withW, and_self]

theorem uploadHandler_post_copyFails (templates : Templates) (r : Request) (st : State)
    (f : MultipartFile) (h : FileHeader) (e : GoError) (fs1 : FileSystem) (p : OpenFile)
    (hMethod : r.Method = "POST") (hExtract : r.FormFile "image" = .ok (f, h))
    (hCreate : osCreate st.fs (UPLOAD_DIR ++ "/" ++ h.Filename) = .ok (fs1, p))
    (hCopy : f.readErr = some e) :
    (uploadHandler templates r st).st.w = httpError st.w e.msg StatusInternalServerError := by
  have hg : ¬ ("POST" = "GET") := by decide
  have hpair : ioCopy fs1 p f = ((ioCopy fs1 p f).1, some e) := by
    rw [← hCopy, ← ioCopy_snd fs1 p f]
  unfold uploadHandler
  simp only [hMethod, hg, if_false, if_true, hExtract, State.log, hCreate, State.withW]
  rw [hpair]
  simp only [replyWithError, callError, State.withW]

theorem uploadHandler_found (templates : Templates) (r : Request) (fs : FileSystem)
    (f : MultipartFile) (h : FileHeader)
    (hMethod : r.Method = "POST") (hExtract : r.FormFile "image" = .ok (f, h))
    (hStatus : (uploadHandler templates r (State.start fs)).st.w.status = some StatusFound) :
    ∃ fs1 p, osCreate fs (UPLOAD_DIR ++ "/" ++ h.Filename) = .ok (fs1, p)
      ∧ (ioCopy fs1 p f).2 = none := by
  cases hc : osCreate fs (UPLOAD_DIR ++ "/" ++ h.Filename) with
  | error e =>
    exfalso
    rw [(uploadHandler_post_createFails templates r (State.start fs) f h e hMethod hExtract
      hc).1, httpError_status_none _ _ _ rfl] at hStatus
    revert hStatus
    decide
  | ok res =>
    obtain ⟨fs1, p⟩ := res
    refine ⟨fs1, p, rfl, ?_⟩
    cases hr : f.readErr with
    | none => rw [ioCopy_snd, hr]
    | some e =>
      exfalso
      rw [uploadHandler_post_copyFails templates r (State.start fs) f h e fs1 p hMethod
        hExtract hc hr, httpError_status_none _ _ _ rfl] at hStatus
      revert hStatus
      decide

theorem cleanPath_upload_dir : cleanPath UPLOAD_DIR = ["src", "uploads"] := by decide

theorem uploadSucceeds_formFile (templates : Templates) (fs : FileSystem) (r : Request)
    (a : String) (hUp : UploadSucceeds templates fs r a) :
    ∃ f, r.FormFile "image" = .ok (f, ⟨a⟩) := by
  obtain ⟨_, hName, _⟩ := hUp
  cases hff : r.FormFile "image" with
  | error e => rw [hff] at hName; cases hName
  | ok fh =>
    obtain ⟨f, h⟩ := fh
    rw [hff] at hName
    simp only [Except.toOption, Option.map_some', Option.some.injEq] at hName
    cases h
    simp only at hName
    subst hName
    exact ⟨f, rfl⟩

/-- The name of a successful upload has no slash in it. -/
theorem uploadSucceeds_noSlash (templates : Templates) (fs : FileSystem) (r : Request)
    (a : String) (hUp : UploadSucceeds templates fs r a) : '/' ∉ a.data := by
  obtain ⟨f, hExtract⟩ := uploadSucceeds_formFile templates fs r a hUp
  rcases formFile_name r "image" f ⟨a⟩ hExtract with h | h
  · exact h
  · exfalso
    simp only at h
    subst h
    obtain ⟨hMethod, _, hStatus⟩ := hUp
    obtain ⟨fs1, p, hCreate, _⟩ :=
      uploadHandler_found templates r fs f ⟨"/"⟩ hMethod hExtract hStatus
    obtain ⟨hres, hnd, _, _⟩ := osCreate_ok fs fs1 _ p hCreate
    obtain ⟨_, _, _, _, _, ⟨init, last, hsplit, hplain, _⟩, _, _, _⟩ :=
      resolve_nondir fs _ p.loc hres hnd
    have hcomp : components (UPLOAD_DIR ++ "/" ++ "/") = [".", "src", "uploads", ""] ++ [""] := by
      decide
    rw [hcomp] at hsplit
    obtain ⟨_, hlast⟩ := List.append_inj' hsplit rfl
    simp only [List.cons.injEq, and_true] at hlast
    exact hplain.1 hlast.symm

/-- A successful upload puts the file into the storage root, under the name
the handler received, with the bytes of the body, and changes nothing else. -/
theorem upload_step (templates : Templates) (fs : FileSystem) (r : Request) (a : String)
    (hUp : UploadSucceeds templates fs r a) :
    (∃ content, ∀ q : Path, (afterUpload templates fs r).lookup q
        = if q = ["src", "uploads", a] then some (Node.file content) else fs.lookup q)
    ∧ fs.lookup ["src"] = some Node.dir ∧ fs.lookup ["src", "uploads"] = some Node.dir := by
  have ha := uploadSucceeds_noSlash templates fs r a hUp
  obtain ⟨f, hExtract⟩ := uploadSucceeds_formFile templates fs r a hUp
  obtain ⟨hMethod, _, hStatus⟩ := hUp
  obtain ⟨fs1, file, hCreate, hCopy⟩ :=
    uploadHandler_found templates r fs f ⟨a⟩ hMethod hExtract hStatus
  have hup := uploadHandler_post_ok templates r (State.start fs) f ⟨a⟩ fs1 file hMethod
    hExtract hCreate hCopy
  obtain ⟨hres, hnd, hfs1, _⟩ := osCreate_ok fs fs1 _ file hCreate
  obtain ⟨_, _, hne, _, hpd, ⟨init, last, hsplit, _, hp⟩, _, _, _⟩ :=
    resolve_nondir fs _ file.loc hres hnd
  have hcomp : init ++ [last] = [".", "src", "uploads"] ++ [a] := by
    rw [← hsplit]; exact components_upload a ha
  obtain ⟨hinit, hlast⟩ := List.append_inj' hcomp rfl
  simp only [List.cons.injEq, and_true] at hlast
  subst hinit hlast
  have hp2 : file.loc = ["src", "uploads", last] := by rw [hp]; rfl
  have hcopy := ioCopy_after_create fs fs1 _ file f hCreate hne
  rw [hp2] at hne hpd hcopy hfs1
  refine ⟨⟨f.content, ?_⟩, ?_, ?_⟩
  · intro q
    unfold afterUpload
    rw [hup]
    show (ioCopy fs1 file f).1.lookup q = _
    rw [hcopy]
    by_cases hq : q = ["src", "uploads", last]
    · rw [hq, lookup_put_same _ _ _ hne]; simp
    · rw [lookup_put_other _ _ _ _ hq, hfs1, lookup_put_other _ _ _ _ hq]; simp [hq]
  · exact hpd ["src"] ⟨["uploads", last], rfl⟩ (by simp)
  · exact hpd ["src", "uploads"] ⟨[last], rfl⟩ (by simp)

theorem readDir_upload_dir_ok (fs : FileSystem) (h1 : fs.lookup ["src"] = some Node.dir)
    (h2 : fs.lookup ["src", "uploads"] = some Node.dir) :
    (ioutilReadDir fs UPLOAD_DIR).2 = none := by
  have hc : components UPLOAD_DIR = [".", "src", "uploads"] := by decide
  have hne : ¬ (UPLOAD_DIR = "") := by decide
  have h0 : fs.lookup [] = some Node.dir := rfl
  have s1 : step [] "." = [] := by decide
  have s2 : step [] "src" = ["src"] := by decide
  have s3 : step ["src"] "uploads" = ["src", "uploads"] := by decide
  have hp : ¬ (PATH_MAX ≤ UPLOAD_DIR.length) := by decide
  have hz : hasNul UPLOAD_DIR = false := by decide
  have n1 : ¬ (NAME_MAX < ".".length) := by decide
  have n2 : ¬ (NAME_MAX < "src".length) := by decide
  have n3 : ¬ (NAME_MAX < "uploads".length) := by decide
  unfold ioutilReadDir resolve
  simp only [hz, Bool.false_eq_true, hne, hp, if_false, hc, walk, h0, s1, s2, h1, s3, h2,
    n1, n2, n3]

theorem sliceFrom_of_prefix (pre path : String) (hPre : pre ≠ "")
    (hUnder : pre.data <+: path.data) :
    sliceFrom path ((pre.length : Int) - 1)
      = .ok (String.mk (path.data.drop (pre.length - 1))) := by
  have hlen : 0 < pre.length := by
    rcases pre with ⟨d⟩
    cases d with
    | nil => exact absurd rfl hPre
    | cons c cs => simp [String.length]
  have hle : pre.length ≤ path.length := hUnder.length_le
  unfold sliceFrom
  have h1 : (0 : Int) ≤ (pre.length : Int) - 1 := by omega
  have h2 : (pre.length : Int) - 1 ≤ (path.length : Int) := by omega
  have h3 : ((pre.length : Int) - 1).toNat = pre.length - 1 := by omega
  simp only [h1, h2, and_self, if_true, h3]

theorem foldl_names (l : List FileInfo) (init : List String) :
    l.foldl (fun images file => images ++ [file.Name]) init = init ++ l.map FileInfo.Name := by
  induction l generalizing init with
  | nil => simp
  | cons x rest ih => simp [List.foldl, ih]

theorem ioutilReadDir_err_none (fs : FileSystem) (path : String)
    (h : (ioutilReadDir fs path).2 = none) :
    ioutilReadDir fs path = ((ioutilReadDir fs path).1, none) := by
  rw [← h]

/-- What `listSavedImage` does once the directory read has succeeded. -/
theorem listSavedImage_read_ok (templates : Templates) (r : Request) (st : State)
    (hRead : (ioutilReadDir st.fs UPLOAD_DIR).2 = none) :
    listSavedImage templates r st =
      match templateExecute (templates "list.html") "list.html"
          [("images", listedImages st.fs)] (st.log (Call.readDir UPLOAD_DIR)) with
      | (st2, .error v) => ⟨st2, Completion.panicked v⟩
      | (st2, .ok resultErr) =>
        if resultErr ≠ none then ⟨st2, Completion.panicked (PanicValue.error nilDereference)⟩
        else ⟨st2, Completion.returned⟩ := by
  have hk : "list" ++ ".html" = "list.html" := by decide
  unfold listSavedImage
  simp only [State.log]
  rw [ioutilReadDir_err_none st.fs UPLOAD_DIR hRead]
  simp only [ne_eq, not_true_eq_false, if_false, foldl_names, List.nil_append,
    useTemplateFile, hk, replyWithError, callError, listedImages, State.log]

theorem templateExecute_frame (t : Option Template) (key : String) (locals : Locals)
    (st : State) :
    (templateExecute t key locals st).1.trace = st.trace ++ [Call.execute key locals]
    ∧ (templateExecute t key locals st).1.fs = st.fs := by
  unfold templateExecute
  cases t with
  | none => exact ⟨rfl, rfl⟩
  | some run =>
    simp only [State.log, State.withW]
    split <;> exact ⟨rfl, rfl⟩

theorem listSavedImage_read_ok_st (templates : Templates) (r : Request) (st : State)
    (hRead : (ioutilReadDir st.fs UPLOAD_DIR).2 = none) :
    (listSavedImage templates r st).st
      = (templateExecute (templates "list.html") "list.html"
          [("images", listedImages st.fs)] (st.log (Call.readDir UPLOAD_DIR))).1 := by
  rw [listSavedImage_read_ok templates r st hRead]
  rcases templateExecute (templates "list.html") "list.html"
      [("images", listedImages st.fs)] (st.log (Call.readDir UPLOAD_DIR)) with ⟨st2, res⟩
  cases res with
  | error v => rfl
  | ok resultErr =>
    simp only
    split <;> rfl

theorem walk_error_ne_eexist (fs : FileSystem) (cs : List String) (cur : Path) (e : Errno)
    (h : walk fs cur cs = .error e) : e ≠ Errno.EEXIST := by
  induction cs generalizing cur with
  | nil => cases h
  | cons c rest ih =>
    unfold walk at h
    split at h
    · split at h
      · cases h; decide
      · exact ih (step cur c) h
    · cases h; decide
    · cases h; decide

/-- When nothing exists at a path, `IsExist` says so: `os.Stat` fails with an
error that is not already-exists. -/
theorem isExist_of_absent (fs : FileSystem) (path : String) (st : State)
    (hfs : st.fs = fs) (h : Absent fs path) :
    IsExist path st = (st.log (Call.stat path), false) := by
  have hstat : ∃ e, statNode fs path = .error e ∧ e ≠ Errno.EEXIST := by
    unfold Absent at h
    unfold statNode
    cases hr : resolve fs path with
    | error e =>
      refine ⟨e, rfl, ?_⟩
      unfold resolve at hr
      split at hr
      · cases hr; decide
      · split at hr
        · cases hr; decide
        · split at hr
          · cases hr; decide
          · exact walk_error_ne_eexist fs _ [] e hr
    | ok p =>
      rw [hr] at h
      simp only at h
      simp only [h]
      exact ⟨Errno.ENOENT, rfl, by decide⟩
  obtain ⟨e, he, hne⟩ := hstat
  have hlog : (st.log (Call.stat path)).fs = fs := hfs
  unfold IsExist osStat
  simp only [hlog, he, osIsExist, pathError]
  simp [hne]

/-- What `listSavedImage` does with a loaded `list` view once the directory
read has succeeded. -/
theorem listSavedImage_render (templates : Templates) (r : Request) (fs : FileSystem)
    (t : Template) (hRead : (ioutilReadDir fs UPLOAD_DIR).2 = none)
    (hView : templates "list.html" = some t) :
    (listSavedImage templates r (State.start fs)).st.w.body
        = (t [("images", listedImages fs)]).1
    ∧ ((t [("images", listedImages fs)]).2 = none →
        (listSavedImage templates r (State.start fs)).result = Completion.returned) := by
  have hl := listSavedImage_read_ok templates r (State.start fs) hRead
  have hfs : (State.start fs).fs = fs := rfl
  simp only [hfs, hView, templateExecute, State.log] at hl
  rw [hl]
  constructor
  · by_cases hout : (t [("images", listedImages fs)]).1 = ""
    · simp only [hout, if_true]
      split <;> rfl
    · simp only [hout, if_false]
      split <;> simp [State.withW, State.start, ResponseWriter.Write,
        ResponseWriter.WriteHeader, ResponseWriter.fresh]
  · intro hok
    simp only [hok, ne_eq, not_true_eq_false, if_false]

/-! ## The claims -/

/-- C2, as amended. A panic of `fn` whose value is not an `error` is not
turned into a response: the wrapper adds nothing to what `fn` left.  But the
panic does not leave the wrapper either: `recover()` has stopped it, and
`safeHandler(fn)` returns normally to its caller. -/
theorem safeHandler_stops_non_error (fn : HandlerFunc) (r : Request) (st : State) (v : String)
    (h : (fn r st).result = Completion.panicked (PanicValue.other v)) :
    (safeHandler fn r st).st = (fn r st).st
    ∧ (safeHandler fn r st).result = Completion.returned := by
  unfold safeHandler
  simp only [h, recover]
  exact ⟨trivial, trivial⟩

/-- Witness for C2 as amended: a handler that panics with a plain string. -/
theorem safeHandler_stops_non_error_witness :
    (safeHandler (panicsWith (PanicValue.other "boom")) (getRequest "/json" [])
        (State.start demoFs)).st = State.start demoFs
    ∧ (safeHandler (panicsWith (PanicValue.other "boom")) (getRequest "/json" [])
        (State.start demoFs)).result = Completion.returned :=
  safeHandler_stops_non_error (panicsWith (PanicValue.other "boom")) (getRequest "/json" [])
    (State.start demoFs) "boom" rfl

/-- Counterexample to C2 as stated: the handler panics with the plain string
`boom`, and the wrapped handler does not raise that panic to its caller. -/
theorem safeHandler_non_error_not_raised :
    (panicsWith (PanicValue.other "boom") (getRequest "/json" []) (State.start demoFs)).result
        = Completion.panicked (PanicValue.other "boom")
    ∧ (safeHandler (panicsWith (PanicValue.other "boom")) (getRequest "/json" [])
        (State.start demoFs)).result ≠ Completion.panicked (PanicValue.other "boom") := by
  decide

/-- C3, as amended. When `fn` panics with an `error` e, `safeHandler(fn)`
returns normally and answers through `http.Error`: e's text and a newline are
appended to the body, and the status is 500 if `fn` had not committed a
status (a status `fn` had committed stays); nothing else changes.  When `fn`
returns, `safeHandler(fn)` leaves exactly what `fn` left.  `main` registers
the four dynamic handlers wrapped in `safeHandler`. -/
theorem safeHandler_contains_errors (fn : HandlerFunc) (r : Request) (st : State)
    (templates : Templates) :
    (∀ e : GoError, (fn r st).result = Completion.panicked (PanicValue.error e) →
        (safeHandler fn r st).result = Completion.returned
      ∧ (safeHandler fn r st).st.w.body = (fn r st).st.w.body ++ (e.msg ++ "\n")
      ∧ ((fn r st).st.w.status = none → (safeHandler fn r st).st.w.status = some 500)
      ∧ (∀ c, (fn r st).st.w.status = some c → (safeHandler fn r st).st.w.status = some c)
      ∧ (safeHandler fn r st).st.fs = (fn r st).st.fs
      ∧ (safeHandler fn r st).st.trace = (fn r st).st.trace)
    ∧ ((fn r st).result = Completion.returned → safeHandler fn r st = fn r st)
    ∧ main templates =
        [("/assets/", staticDirFunc "/assets/" STATIC_DIR 0),
         ("/upload", safeHandler (uploadHandler templates)),
         ("/view", safeHandler viewImageHandler),
         ("/list", safeHandler (listSavedImage templates)),
         ("/json", safeHandler textJsonReturn)] := by
  refine ⟨?_, ?_, rfl⟩
  · intro e h
    rw [safeHandler_error fn r st e h]
    refine ⟨rfl, httpError_body _ _ _, ?_, ?_, rfl, rfl⟩
    · intro hs; exact httpError_status_none _ _ _ hs
    · intro c hs; exact httpError_status_some _ _ _ _ hs
  · intro h
    unfold safeHandler
    simp only [h, recover]
    cases hfn : fn r st with
    | mk s res =>
      rw [hfn] at h
      simp only at h
      rw [h]

/-- Witness for C3 as amended: a handler that panics with an error before it
writes anything gets status 500. -/
theorem safeHandler_contains_errors_witness :
    (safeHandler (panicsWith (PanicValue.error (errorsNew "boom"))) (getRequest "/json" [])
        (State.start demoFs)).st.w.status = some 500 :=
  ((safeHandler_contains_errors (panicsWith (PanicValue.error (errorsNew "boom")))
    (getRequest "/json" []) (State.start demoFs) noTemplates).1 (errorsNew "boom") rfl).2.2.1 rfl

/-- Counterexample to C3 as stated: a handler that has written to the
response before it panics with an error; the status of the response is 200,
not 500. -/
theorem safeHandler_committed_status_stays :
    (writesThenPanics "half" (PanicValue.error (errorsNew "boom")) (getRequest "/json" [])
        (State.start demoFs)).result = Completion.panicked (PanicValue.error (errorsNew "boom"))
    ∧ (safeHandler (writesThenPanics "half" (PanicValue.error (errorsNew "boom")))
        (getRequest "/json" []) (State.start demoFs)).st.w.status = some 200
    ∧ (safeHandler (writesThenPanics "half" (PanicValue.error (errorsNew "boom")))
        (getRequest "/json" []) (State.start demoFs)).st.w.body = "halfboom\n" := by
  decide

/-- C5. A POST to `uploadHandler` whose field `image` cannot be extracted
(error e) is answered with status 500 and e's text (and a newline) as body,
without redirect; no create or copy is attempted and the storage is left as
it was.  The wrapped handler behaves the same. -/
theorem upload_extract_failure_atomic (templates : Templates) (fs : FileSystem)
    (r : Request) (e : GoError)
    (hMethod : r.Method = "POST") (hExtract : r.FormFile "image" = .error e) :
    (uploadHandler templates r (State.start fs)).result = Completion.returned
    ∧ (uploadHandler templates r (State.start fs)).st.w.status = some 500
    ∧ (uploadHandler templates r (State.start fs)).st.w.body = e.msg ++ "\n"
    ∧ (uploadHandler templates r (State.start fs)).st.w.header.lookup "Location" = none
    ∧ (uploadHandler templates r (State.start fs)).st.fs = fs
    ∧ (uploadHandler templates r (State.start fs)).st.trace = [Call.formFile "image"]
    ∧ safeHandler (uploadHandler templates) r (State.start fs)
        = uploadHandler templates r (State.start fs) := by
  have hup := uploadHandler_post_noFile templates r (State.start fs) e hMethod hExtract
  obtain ⟨h1, h2, h3⟩ := httpError_fresh e.msg StatusInternalServerError
  refine ⟨?_, ?_, ?_, ?_, ?_, ?_, ?_⟩
  · rw [hup]
  · rw [hup]; exact h1
  · rw [hup]; exact h2
  · rw [hup]; exact h3
  · rw [hup]; rfl
  · rw [hup]; rfl
  · unfold safeHandler
    rw [hup]
    rfl

/-- Witness for C5: a POST without any file is answered with status 500 and
the text of `http.ErrMissingFile`. -/
theorem upload_extract_failure_atomic_witness :
    (uploadHandler noTemplates ⟨"POST", "/upload", "", [], none, []⟩
        (State.start demoFs)).st.w.body = "http: no such file\n"
    ∧ (uploadHandler noTemplates ⟨"POST", "/upload", "", [], none, []⟩
        (State.start demoFs)).st.fs = demoFs :=
  ⟨(upload_extract_failure_atomic noTemplates demoFs ⟨"POST", "/upload", "", [], none, []⟩
      ErrMissingFile rfl rfl).2.2.1,
   (upload_extract_failure_atomic noTemplates demoFs ⟨"POST", "/upload", "", [], none, []⟩
      ErrMissingFile rfl rfl).2.2.2.2.1⟩

/-- C7, as amended. When the flags have the `ListDir` bit clear (as the 0
that `main` passes) and the request path lies under the prefix, a file
`staticDir` + path-from-the-last-character-of-the-prefix at which nothing
exists in the file system is answered `404 page not found` from the handler's
own `IsExist` check: the only library call is that `os.Stat`, and nothing is
handed to `http.ServeFile`. -/
theorem static_missing_not_found (pre staticDir : String) (flags : Int) (r : Request)
    (fs : FileSystem)
    (hFlags : Int.land flags ListDir = 0)
    (hPre : pre ≠ "") (hUnder : pre.data <+: r.urlPath.data)
    (hMissing : Absent fs (staticDir ++ String.mk (r.urlPath.data.drop (pre.length - 1)))) :
    (staticDirFunc pre staticDir flags r (State.start fs)).result = Completion.returned
    ∧ (staticDirFunc pre staticDir flags r (State.start fs)).st.w.status = some 404
    ∧ (staticDirFunc pre staticDir flags r (State.start fs)).st.w.body = "404 page not found\n"
    ∧ (staticDirFunc pre staticDir flags r (State.start fs)).st.trace
        = [Call.stat (staticDir ++ String.mk (r.urlPath.data.drop (pre.length - 1)))]
    ∧ (staticDirFunc pre staticDir flags r (State.start fs)).st.fs = fs := by
  have hs := sliceFrom_of_prefix pre r.urlPath hPre hUnder
  have hex := isExist_of_absent fs _ (State.start fs) rfl hMissing
  unfold staticDirFunc
  simp only [hs, hFlags, if_true, hex, Bool.not_false]
  obtain ⟨h1, h2, _⟩ := httpError_fresh "404 page not found" 404
  exact ⟨trivial, h1, h2, rfl, rfl⟩

/-- Witness for C7 as amended: the route of `main`, a missing style sheet,
and a path that runs through a regular file. -/
theorem static_missing_not_found_witness :
    (staticDirFunc "/assets/" STATIC_DIR 0 (getRequest "/assets/x.css" [])
        (State.start demoFs)).st.trace = [Call.stat "./src/public/x.css"]
    ∧ (staticDirFunc "/up/" UPLOAD_DIR 0 (getRequest "/up/b.png/x" [])
        (State.start demoFs)).st.w.status = some 404 :=
  ⟨(static_missing_not_found "/assets/" STATIC_DIR 0 (getRequest "/assets/x.css" []) demoFs
      (by decide) (by decide) (by decide) (by decide)).2.2.2.1,
   (static_missing_not_found "/up/" UPLOAD_DIR 0 (getRequest "/up/b.png/x" []) demoFs
      (by decide) (by decide) (by decide) (by decide)).2.1⟩

/-- Counterexample to C7 as stated: with the `ListDir` bit set (flags = 1) and
a file that does not exist, the handler makes no existence check and hands
the path to `http.ServeFile`. -/
theorem static_listDir_skips_check :
    (IsExist "./src/public/x.css" (State.start demoFs)).2 = false
    ∧ (staticDirFunc "/assets/" STATIC_DIR 1 (getRequest "/assets/x.css" [])
        (State.start demoFs)).st.trace = [Call.serveFile "./src/public/x.css"] := by
  decide

/-- C8. For every id the name `viewImageHandler` hands to `http.ServeFile`
is `./src/uploads/` followed by the id as it came, and the call is made
whatever the id is.  For the id `../views/list.html` that name, once its `..`
segment is collapsed, is `src/views/list.html`, which does not lie under the
storage root `src/uploads`; on the sample storage the handler serves that
view file. -/
theorem view_path_is_raw_concatenation (r : Request) (st : State) :
    (viewImageHandler r st).st.trace
        = st.trace ++ [Call.serveFile ("./src/uploads/" ++ r.FormValue "id")]
    ∧ cleanPath ("./src/uploads/" ++ "../views/list.html") = ["src", "views", "list.html"]
    ∧ ¬ (cleanPath UPLOAD_DIR <+: cleanPath ("./src/uploads/" ++ "../views/list.html"))
    ∧ (viewImageHandler (getRequest "/view" [("id", "../views/list.html")])
        (State.start demoFs)).st.w.body = "<ul></ul>" := by
  refine ⟨?_, by decide, by decide, by decide⟩
  have hpath : UPLOAD_DIR ++ "/" ++ r.FormValue "id" = "./src/uploads/" ++ r.FormValue "id" := by
    show ("./src/uploads" ++ "/") ++ r.FormValue "id" = _
    rfl
  show (httpServeFile r (UPLOAD_DIR ++ "/" ++ r.FormValue "id")
    (st.withW fun w => w.headerSet "Content-Type" "image")).trace = _
  rw [(httpServeFile_frame r _ _).1, hpath]
  rfl

/-- C9. On every GET request `textJsonReturn` writes the same bytes, the JSON
text of the record (12, "Afra", true), which decodes to Age = 12,
Name = "Afra", Sex = true; two GET requests, whatever else they contain and
whatever the storage holds, get byte-identical bodies; the handler makes no
library call on the storage and leaves it as it was. -/
theorem json_endpoint_constant (r1 r2 : Request) (fs1 fs2 : FileSystem)
    (h1 : r1.Method = "GET") (h2 : r2.Method = "GET") :
    (textJsonReturn r1 (State.start fs1)).st.w.body = manJson
    ∧ decodeMan manJson = some ⟨12, "Afra", true⟩
    ∧ (textJsonReturn r1 (State.start fs1)).st.w.body
        = (textJsonReturn r2 (State.start fs2)).st.w.body
    ∧ (textJsonReturn r1 (State.start fs1)).st.fs = fs1
    ∧ (textJsonReturn r1 (State.start fs1)).st.trace = []
    ∧ (textJsonReturn r1 (State.start fs1)).result = Completion.returned := by
  have hm : jsonMarshal ⟨12, "Afra", true⟩ = .ok manJson := by rfl
  have key : ∀ (r : Request) (fs : FileSystem), r.Method = "GET" →
      textJsonReturn r (State.start fs)
        = ⟨(State.start fs).withW (fun w => w.Write manJson), Completion.returned⟩ := by
    intro r fs h
    unfold textJsonReturn
    simp only [h, if_true, hm]
  have hb : ∀ fs : FileSystem,
      ((State.start fs).withW (fun w => w.Write manJson)).w.body = manJson := by
    intro fs
    simp [State.start, State.withW, ResponseWriter.Write, ResponseWriter.WriteHeader,
      ResponseWriter.fresh]
  rw [key r1 fs1 h1, key r2 fs2 h2]
  refine ⟨hb fs1, by decide, ?_, rfl, rfl, rfl⟩
  show ((State.start fs1).withW (fun w => w.Write manJson)).w.body
    = ((State.start fs2).withW (fun w => w.Write manJson)).w.body
  rw [hb fs1, hb fs2]

/-- Witness for C9: two different GET requests on different storages. -/
theorem json_endpoint_constant_witness :
    (textJsonReturn (getRequest "/json" []) (State.start demoFs)).st.w.body
      = (textJsonReturn (getRequest "/json" [("id", "7")]) (State.start emptyRootFs)).st.w.body :=
  (json_endpoint_constant (getRequest "/json" []) (getRequest "/json" [("id", "7")])
    demoFs emptyRootFs rfl rfl).2.2.1

/-- C10, as amended. When the directory read succeeds and the `list` view
returns an error r, `listSavedImage` writes no 500 response with r's text:
line 164 asks the nil error of the directory read for its text, which panics
with the nil-dereference runtime error, an `error`.  Under `safeHandler` the
text of that runtime error (not r's) is sent after whatever the view had
written, with status 500 when the view had written nothing and with the
already committed status 200 otherwise. -/
theorem list_render_failure_wrong_variable (templates : Templates) (fs : FileSystem)
    (r : Request) (t : Template) (rErr : GoError)
    (hRead : (ioutilReadDir fs UPLOAD_DIR).2 = none)
    (hView : templates "list.html" = some t)
    (hRender : (t [("images", listedImages fs)]).2 = some rErr) :
    (listSavedImage templates r (State.start fs)).result
        = Completion.panicked (PanicValue.error nilDereference)
    ∧ (listSavedImage templates r (State.start fs)).st.w.body
        = (t [("images", listedImages fs)]).1
    ∧ (listSavedImage templates r (State.start fs)).st.w.status ≠ some 500
    ∧ (safeHandler (listSavedImage templates) r (State.start fs)).result
        = Completion.returned
    ∧ (safeHandler (listSavedImage templates) r (State.start fs)).st.w.body
        = (t [("images", listedImages fs)]).1 ++ (nilDereference.msg ++ "\n")
    ∧ ((t [("images", listedImages fs)]).1 = "" →
        (safeHandler (listSavedImage templates) r (State.start fs)).st.w.status = some 500)
    ∧ ((t [("images", listedImages fs)]).1 ≠ "" →
        (safeHandler (listSavedImage templates) r (State.start fs)).st.w.status = some 200) := by
  have hl := listSavedImage_read_ok templates r (State.start fs) hRead
  have hfs : (State.start fs).fs = fs := rfl
  simp only [hfs, hView, templateExecute, hRender, State.log, ne_eq,
    not_false_eq_true, if_true, reduceCtorEq] at hl
  have hres : (listSavedImage templates r (State.start fs)).result
      = Completion.panicked (PanicValue.error nilDereference) := by rw [hl]
  have hsafe := safeHandler_error (listSavedImage templates) r (State.start fs)
    nilDereference hres
  have s1 : (safeHandler (listSavedImage templates) r (State.start fs)).result
      = Completion.returned := by rw [hsafe]
  have s2 : (safeHandler (listSavedImage templates) r (State.start fs)).st.w.body
      = (listSavedImage templates r (State.start fs)).st.w.body
        ++ (nilDereference.msg ++ "\n") := by
    rw [hsafe]; exact httpError_body _ _ _
  have s3 : (listSavedImage templates r (State.start fs)).st.w.status = none →
      (safeHandler (listSavedImage templates) r (State.start fs)).st.w.status = some 500 := by
    intro hs; rw [hsafe]; exact httpError_status_none _ _ _ hs
  have s4 : ∀ c, (listSavedImage templates r (State.start fs)).st.w.status = some c →
      (safeHandler (listSavedImage templates) r (State.start fs)).st.w.status = some c := by
    intro c hs; rw [hsafe]; exact httpError_status_some _ _ _ _ hs
  by_cases hout : (t [("images", listedImages fs)]).1 = ""
  · have hw : (listSavedImage templates r (State.start fs)).st.w = ResponseWriter.fresh := by
      rw [hl]; simp only [State.start, hout, if_true]
    refine ⟨hres, ?_, ?_, s1, ?_, ?_, ?_⟩
    · rw [hw, hout]; rfl
    · rw [hw]; decide
    · rw [s2, hw, hout]; rfl
    · intro _; exact s3 (by rw [hw]; rfl)
    · intro h; exact absurd hout h
  · have hw : (listSavedImage templates r (State.start fs)).st.w
        = ResponseWriter.fresh.Write (t [("images", listedImages fs)]).1 := by
      rw [hl]; simp only [State.start, hout, if_false, State.withW]
    have hb : (ResponseWriter.fresh.Write (t [("images", listedImages fs)]).1).body
        = (t [("images", listedImages fs)]).1 := by
      simp [ResponseWriter.Write, ResponseWriter.WriteHeader, ResponseWriter.fresh]
    have hs : (ResponseWriter.fresh.Write (t [("images", listedImages fs)]).1).status
        = some 200 := rfl
    refine ⟨hres, ?_, ?_, s1, ?_, ?_, ?_⟩
    · rw [hw, hb]
    · rw [hw, hs]; decide
    · rw [s2, hw, hb]
    · intro h; exact absurd h hout
    · intro _; exact s4 200 (by rw [hw, hs])

/-- Witness for C10 as amended: a `list` view that fails before it writes. -/
theorem list_render_failure_wrong_variable_witness :
    (safeHandler (listSavedImage failingTemplates) (getRequest "/list" [])
        (State.start demoFs)).st.w.body
      = "runtime error: invalid memory address or nil pointer dereference\n"
    ∧ (safeHandler (listSavedImage failingTemplates) (getRequest "/list" [])
        (State.start demoFs)).st.w.status = some 500 :=
  ⟨(list_render_failure_wrong_variable failingTemplates demoFs (getRequest "/list" [])
      failingView (errorsNew "boom") rfl rfl rfl).2.2.2.2.1,
   (list_render_failure_wrong_variable failingTemplates demoFs (getRequest "/list" [])
      failingView (errorsNew "boom") rfl rfl rfl).2.2.2.2.2.1 rfl⟩

/-- Counterexample to C10 as stated: the directory read succeeds and the
`list` view returns an error after it has written `<ul>`; under
`safeHandler` the client receives status 200, not 500. -/
theorem list_render_failure_status_200 :
    (ioutilReadDir demoFs UPLOAD_DIR).2 = none
    ∧ (brokenView [("images", listedImages demoFs)]).2 = some (errorsNew "boom")
    ∧ (safeHandler (listSavedImage brokenTemplates) (getRequest "/list" [])
        (State.start demoFs)).st.w.status = some 200 := by
  decide

end PhotoWeb
